import Mathlib

/-!
Verification development for the ibkr-report-parser repository.

The Python sources are shallowly embedded: monetary values are modelled at the
value level as rationals, with every arithmetic operation of Python `Decimal`
(default context: 28 significant digits, ROUND_HALF_EVEN) rounded by `round28`;
dates are a plain Gregorian calendar record; fallible code returns
`Except RErr`; Python dicts become insertion-ordered association lists.
`Decimal` NaN/Infinity literals are outside the model: the string parser
accepts exactly sign/digits/point/exponent forms.
-/

namespace IBKR

/-! Association lists standing for Python dicts (insertion ordered; update in
place keeps the position of the key, like Python 3.7+ dicts). -/

def lookupStr {α : Type} : List (String × α) → String → Option α
  | [], _ => none
  | (k, v) :: rest, key => if k = key then some v else lookupStr rest key

def assocSet {α : Type} : List (String × α) → String → α → List (String × α)
  | [], key, v => [(key, v)]
  | (k, w) :: rest, key, v =>
    if k = key then (k, v) :: rest else (k, w) :: assocSet rest key v

/-! Value-level model of Python `Decimal` context arithmetic.

A `Decimal` operation computes the exact result and rounds it to 28
significant digits with ROUND_HALF_EVEN.  Construction from a string or a
float is exact (the context does not apply), so constants keep full precision.
We model only the value of a `Decimal` (its numeric worth), which is all the
program observes through `==`, `<`, `abs` and `min`. -/

/-- Fast decidable equality for rationals going through `Int.beq`, so that
`decide` can evaluate equalities between concrete rational values. -/
instance (priority := 2000) : DecidableEq ℚ := fun a b =>
  decidable_of_iff ((a.num == b.num && a.den == b.den) = true)
    (by
      simp only [Bool.and_eq_true, beq_iff_eq]
      exact ⟨fun h => Rat.ext h.1 h.2, fun h => by subst h; exact ⟨rfl, rfl⟩⟩)

/-- Number of base-10 digits of `n`, fuel-driven so that it reduces in the
kernel (`digCount fuel n` is correct whenever `n < fuel`). -/
def digCount : Nat → Nat → Nat
  | 0, _ => 0
  | fuel + 1, n => if n < 10 then 1 else digCount fuel (n / 10) + 1

def digits10 (n : Nat) : Nat := digCount (n + 1) n

/-- Executable `(10 : ℚ) ^ (k : ℤ)`. -/
def qpow10 (k : Int) : ℚ :=
  if 0 ≤ k then ((10 ^ k.toNat : Nat) : ℚ) else ((10 ^ (-k).toNat : Nat) : ℚ)⁻¹

/-- Reference form of rounding a rational to an integer with halves going to
the even neighbour (ROUND_HALF_EVEN); used in proofs. -/
def rhe (x : ℚ) : Int :=
  if x - ((⌊x⌋ : ℚ)) < 1 / 2 then ⌊x⌋
  else if 1 / 2 < x - ((⌊x⌋ : ℚ)) then ⌊x⌋ + 1
  else if ⌊x⌋ % 2 = 0 then ⌊x⌋ else ⌊x⌋ + 1

/-- Executable ROUND_HALF_EVEN of the fraction `p / q` (`q ≠ 0`), through
integer division only. -/
def rheInt (p : Int) (q : Nat) : Int :=
  if 2 * (p % ((q : Int))) < ((q : Int)) then p / ((q : Int))
  else if ((q : Int)) < 2 * (p % ((q : Int))) then p / ((q : Int)) + 1
  else if (p / ((q : Int))) % 2 = 0 then p / ((q : Int)) else p / ((q : Int)) + 1

/-- Floor of log10 of the absolute value of a nonzero rational: the unique
`k` with `10^k ≤ |x| < 10^(k+1)`, computed with integer arithmetic only. -/
def flogNum (x : ℚ) : Int :=
  let c : Int := (digits10 x.num.natAbs : Int) - (digits10 x.den : Int)
  let lt : Bool :=
    if 0 ≤ c then x.num.natAbs < 10 ^ c.toNat * x.den
    else x.num.natAbs * 10 ^ (-c).toNat < x.den
  if lt then c - 1 else c

/-- Python `Decimal` default-context rounding of an exact operation result:
28 significant digits, ROUND_HALF_EVEN.  The value is scaled so that the
mantissa is an integer quotient rounded by `rheInt`. -/
def round28 (x : ℚ) : ℚ :=
  if x = 0 then 0
  else if 0 ≤ 27 - flogNum x then
    ((rheInt (x.num * (10 ^ (27 - flogNum x).toNat : Nat)) x.den : ℚ))
      / (((10 ^ (27 - flogNum x).toNat : Nat) : ℚ))
  else
    ((rheInt x.num (x.den * 10 ^ (-(27 - flogNum x)).toNat) : ℚ))
      * (((10 ^ (-(27 - flogNum x)).toNat : Nat) : ℚ))

def decAdd (a b : ℚ) : ℚ := round28 (a + b)

def decSub (a b : ℚ) : ℚ := round28 (a - b)

def decMul (a b : ℚ) : ℚ := round28 (a * b)

/-! Gregorian dates, modelling Python `datetime.date`. -/

structure PDate where
  year : Int
  month : Nat
  day : Nat
  deriving DecidableEq, Repr

def isLeap (y : Int) : Bool := (y % 4 == 0 && y % 100 != 0) || y % 400 == 0

def daysInMonth (y : Int) (m : Nat) : Nat :=
  if m = 2 then (if isLeap y then 29 else 28)
  else if m = 4 ∨ m = 6 ∨ m = 9 ∨ m = 11 then 30
  else 31

/-- Python `date` comparison (lexicographic on year, month, day). -/
def pdateLE (a b : PDate) : Bool :=
  a.year < b.year ||
    (a.year == b.year &&
      (a.month < b.month || (a.month == b.month && a.day ≤ b.day)))

/-- Days since the civil epoch 1970-01-01 (standard civil-calendar
conversion, used for Python date plus/minus timedelta arithmetic). -/
def toDays (dt : PDate) : Int :=
  let y : Int := dt.year - (if dt.month ≤ 2 then 1 else 0)
  let era : Int := y / 400
  let yoe : Int := y - era * 400
  let mp : Int := ((dt.month : Int) + 9) % 12
  let doy : Int := (153 * mp + 2) / 5 + (dt.day : Int) - 1
  let doe : Int := yoe * 365 + yoe / 4 - yoe / 100 + doy
  era * 146097 + doe - 719468

/-- Inverse of `toDays` (standard civil-from-days algorithm). -/
def fromDays (z0 : Int) : PDate :=
  let z : Int := z0 + 719468
  let era : Int := z / 146097
  let doe : Int := z - era * 146097
  let yoe : Int := (doe - doe / 1460 + doe / 36524 - doe / 146096) / 365
  let y : Int := yoe + era * 400
  let doy : Int := doe - (365 * yoe + yoe / 4 - yoe / 100)
  let mp : Int := (5 * doy + 2) / 153
  let d : Int := doy - (153 * mp + 2) / 5 + 1
  let m : Int := mp + (if mp < 10 then 3 else -9)
  ⟨y + (if m ≤ 2 then 1 else 0), m.toNat, d.toNat⟩

/-- tools.add_years: same calendar date in the destination year if it exists,
otherwise the date moved by the day-count between March 1 of the two years
(which turns February 29 into February 28 of a non-leap target year). -/
def add_years (d : PDate) (years : Int) : PDate :=
  let ny : Int := d.year + years
  if d.day ≤ daysInMonth ny d.month then ⟨ny, d.month, d.day⟩
  else fromDays (toDays d + (toDays ⟨ny, 3, 1⟩ - toDays ⟨d.year, 3, 1⟩))

/-- Python `date - timedelta(1)`. -/
def prevDay (d : PDate) : PDate :=
  if d.day > 1 then ⟨d.year, d.month, d.day - 1⟩
  else if d.month > 1 then ⟨d.year, d.month - 1, daysInMonth d.year (d.month - 1)⟩
  else ⟨d.year - 1, 12, 31⟩

/-- The date reached after going `k` days back. -/
def dateBack (k : Nat) (d : PDate) : PDate := prevDay^[k] d

/-! Error kinds (the repository raises `ValueError` with a message; we keep
the distinguishing payload of each message). -/

inductive RErr : Type
  | invalidDate (s : String)
  | invalidNumber (s : String)
  | divisionByZero
  | symbolMismatch (date tradeSym lotSym : String)
  | quantityMismatch (date sym : String)
  | closedLotWithoutTrade
  | rateNotFound (curFrom curTo : String) (original stopped : PDate)
  | keyError (k : String)
  | indexError
  deriving DecidableEq, Repr

instance {ε α : Type} [DecidableEq ε] [DecidableEq α] : DecidableEq (Except ε α) := fun a b =>
  match a, b with
  | .ok x, .ok y =>
    if h : x = y then .isTrue (by rw [h]) else .isFalse (fun c => by cases c; exact h rfl)
  | .error x, .error y =>
    if h : x = y then .isTrue (by rw [h]) else .isFalse (fun c => by cases c; exact h rfl)
  | .ok _, .error _ => .isFalse (fun c => by cases c)
  | .error _, .ok _ => .isFalse (fun c => by cases c)

/-- Python division of `Decimal`s: raises on a zero divisor, otherwise rounds
the exact quotient. -/
def decDivE (a b : ℚ) : Except RErr ℚ :=
  if b = 0 then .error .divisionByZero else .ok (round28 (a / b))

/-! String parsing helpers: Python `Decimal(str)` literals and
`datetime.strptime` date parsing restricted to the three formats the
program uses. -/

def natOfDigits (l : List Char) : Nat :=
  l.foldl (fun acc c => acc * 10 + (c.toNat - 48)) 0

def isPySpace (c : Char) : Bool :=
  c = ' ' || c = '\t' || c = '\n' || c = '\r' || c = '\x0b' || c = '\x0c'

/-- Exponent tail of a decimal literal: optional sign then nonempty digits,
nothing after. -/
def parseExpTail (cs : List Char) : Option Int :=
  let (sgn, cs1) : Int × List Char :=
    match cs with
    | '-' :: t => (-1, t)
    | '+' :: t => (1, t)
    | t => (1, t)
  match cs1.span Char.isDigit with
  | (ds, []) => if ds.isEmpty then none else some (sgn * (natOfDigits ds : Int))
  | _ => none

/-- Python `Decimal` string literal (finite values only):
`sign? (digits [. digits?] | . digits) ([eE] sign? digits)?`. -/
def parseDecCore (cs : List Char) : Option ℚ :=
  let (sgn, cs1) : ℚ × List Char :=
    match cs with
    | '-' :: t => (-1, t)
    | '+' :: t => (1, t)
    | t => (1, t)
  let (ip, cs2) := cs1.span Char.isDigit
  let (fp, cs3) :=
    match cs2 with
    | '.' :: t => t.span Char.isDigit
    | t => (([] : List Char), t)
  if ip.isEmpty ∧ fp.isEmpty then none
  else
    let mantissa : ℚ :=
      (natOfDigits ip : ℚ) + (natOfDigits fp : ℚ) / (((10 ^ fp.length : Nat) : ℚ))
    match cs3 with
    | [] => some (sgn * mantissa)
    | 'e' :: t => (parseExpTail t).map (fun e => sgn * mantissa * qpow10 e)
    | 'E' :: t => (parseExpTail t).map (fun e => sgn * mantissa * qpow10 e)
    | _ => none

/-- Python `Decimal(s)` (strips surrounding whitespace; NaN and Infinity are
outside the model). -/
def parseDec (s : String) : Except RErr ℚ :=
  match parseDecCore ((s.data.dropWhile isPySpace).reverse.dropWhile isPySpace |>.reverse) with
  | some q => .ok q
  | none => .error (.invalidNumber s)

/-- tools.decimal_cleanup: remove every comma and whitespace character, then
read the string as a `Decimal`. -/
def decimal_cleanup (s : String) : Except RErr ℚ :=
  match parseDecCore (s.data.filter (fun c => ¬(c = ',' ∨ isPySpace c = true))) with
  | some q => .ok q
  | none => .error (.invalidNumber s)

/-- Time part `H:M:S` of `strptime` with `%H:%M:%S` (one or two digits per
field, range-checked). -/
def validTwo (ds : List Char) (hi : Nat) : Bool :=
  (ds.length = 1 ∨ ds.length = 2) ∧ natOfDigits ds ≤ hi

def parseTime (cs : List Char) : Bool :=
  match cs.span Char.isDigit with
  | (hs, ':' :: r1) =>
    validTwo hs 23 &&
      (match r1.span Char.isDigit with
      | (ms, ':' :: r2) =>
        validTwo ms 59 &&
          (match r2.span Char.isDigit with
          | (ss, []) => validTwo ss 59
          | _ => false)
      | _ => false)
  | _ => false

/-- tools.get_date: `strptime` against `%Y-%m-%d, %H:%M:%S`,
`%Y-%m-%d %H:%M:%S` and `%Y-%m-%d` (year exactly four digits, month and day
one or two digits, calendar-validated like `datetime.date`). -/
def get_date (s : String) : Except RErr PDate :=
  match s.data with
  | c1 :: c2 :: c3 :: c4 :: '-' :: rest =>
    if c1.isDigit && c2.isDigit && c3.isDigit && c4.isDigit then
      let y : Int := (natOfDigits [c1, c2, c3, c4] : Int)
      match rest.span Char.isDigit with
      | (ms, '-' :: r2) =>
        if validTwo ms 12 && 1 ≤ natOfDigits ms && 1 ≤ y then
          let m := natOfDigits ms
          match r2.span Char.isDigit with
          | (ds, tail) =>
            if validTwo ds 31 && 1 ≤ natOfDigits ds &&
                natOfDigits ds ≤ daysInMonth y m then
              let d := natOfDigits ds
              match tail with
              | [] => .ok ⟨y, m, d⟩
              | ',' :: ' ' :: t => if parseTime t then .ok ⟨y, m, d⟩ else .error (.invalidDate s)
              | ' ' :: t => if parseTime t then .ok ⟨y, m, d⟩ else .error (.invalidDate s)
              | _ => .error (.invalidDate s)
            else .error (.invalidDate s)
        else .error (.invalidDate s)
      | _ => .error (.invalidDate s)
    else .error (.invalidDate s)
  | _ => .error (.invalidDate s)

/-- One attempt of the regular expression
`(\d\d\d\d-\d\d-\d\d),? ([0-9:]+)` at the head of the character list:
returns the date group and the rest after the whole match. -/
def matchDWT (cs : List Char) : Option (List Char × List Char) :=
  match cs with
  | c1 :: c2 :: c3 :: c4 :: '-' :: c5 :: c6 :: '-' :: c7 :: c8 :: rest =>
    if ([c1, c2, c3, c4, c5, c6, c7, c8].all Char.isDigit) then
      let date := [c1, c2, c3, c4, '-', c5, c6, '-', c7, c8]
      let after : List Char → Option (List Char × List Char) := fun t =>
        match t.span (fun c => c.isDigit || c = ':') with
        | ([], _) => none
        | (_, rest2) => some (date, rest2)
      match rest with
      | ',' :: ' ' :: t => after t
      | ' ' :: t => after t
      | _ => none
    else none
  | _ => none

def dwtGo : Nat → List Char → List Char
  | 0, cs => cs
  | fuel + 1, cs =>
    match cs with
    | [] => []
    | c :: rest =>
      match matchDWT cs with
      | some (date, afterM) => date ++ dwtGo fuel afterM
      | none => c :: dwtGo fuel rest

/-- tools.date_without_time: replace every occurrence of
`(\d\d\d\d-\d\d-\d\d),? ([0-9:]+)` by its date group. -/
def date_without_time (s : String) : String := String.mk (dwtGo s.data.length s.data)

/-! exchangerates.ExchangeRates.get_rate. -/

/-- The in-memory exchange-rate table
`{"YYYY-MM-DD": {"USD": "1.1579", ...}, ...}` (values kept as strings, as in
the source). -/
abbrev RateTable := List (String × List (String × String))

def formatNat (n : Nat) (width : Nat) : String :=
  let s := toString n
  String.mk (List.replicate (width - s.length) '0') ++ s

/-- Python `date.strftime "%Y-%m-%d"` (years of interest are positive). -/
def formatDate (d : PDate) : String :=
  formatNat d.year.toNat 4 ++ "-" ++ formatNat d.month 2 ++ "-" ++ formatNat d.day 2

/-- One day of the backward search: the pair of EUR rates for the two
currencies if both are present on that date (`none` means keep searching;
errors come from string-to-decimal conversion or a zero rate). -/
def resolveRates (table : RateTable) (cf ct : String) (cur : PDate) :
    Except RErr (Option ℚ) :=
  let dr := (lookupStr table (formatDate cur)).getD []
  let fromOpt : Option (Except RErr ℚ) :=
    if cf = "EUR" then some (.ok 1) else (lookupStr dr cf).map parseDec
  let toOpt : Option (Except RErr ℚ) :=
    if ct = "EUR" then some (.ok 1) else (lookupStr dr ct).map parseDec
  match fromOpt, toOpt with
  | some fe, some te => do
    let t ← te
    let f ← fe
    let r ← decDivE t f
    .ok (some r)
  | _, _ => .ok none

/-- The while loop of get_rate: at most `fuel` dates are examined, one day
back at a time; when the fuel is exhausted the current (already decremented)
search date is reported. -/
def rateGo (table : RateTable) (cf ct : String) (orig : PDate) :
    Nat → PDate → Except RErr ℚ
  | 0, cur => .error (.rateNotFound cf ct orig cur)
  | fuel + 1, cur => do
    match ← resolveRates table cf ct cur with
    | some r => .ok r
    | none => rateGo table cf ct orig fuel (prevDay cur)

def MAX_BACKTRACK_DAYS : Nat := 7

/-- exchangerates.ExchangeRates.get_rate with an explicit lookback bound
(the source reads the module constant, which the tests patch). -/
def get_rate_with (maxBack : Nat) (table : RateTable)
    (currency_from currency_to date_str : String) : Except RErr ℚ :=
  if currency_from = currency_to then .ok 1
  else do
    let d ← get_date date_str
    rateGo table currency_from currency_to d maxBack d

def get_rate (table : RateTable) (currency_from currency_to date_str : String) :
    Except RErr ℚ :=
  get_rate_with MAX_BACKTRACK_DAYS table currency_from currency_to date_str

/-! trade.py: the Trade record and its operations, exactly as in the source
(offset-based column access through the `Field` indices of definitions.py). -/

/-- definitions.ReportOptions (report.py later stores the header map in the
state; the flag and currency are immutable configuration). -/
structure ReportOptionsA where
  report_currency : String
  deemed_acquisition_cost : Bool
  offset : Nat
  deriving DecidableEq, Repr

structure RowData where
  symbol : String
  date_str : String
  rate : ℚ
  price_per_share : ℚ
  quantity : ℚ
  deriving DecidableEq, Repr

structure TradeDetails where
  symbol : String
  quantity : ℚ
  buy_date : String
  sell_date : String
  price : ℚ
  realized : ℚ
  deriving DecidableEq, Repr

/-- trade.Trade state (`options` and `rates` are passed to the operations
instead of being stored, so that states of runs with different configuration
stay comparable). -/
structure Trade where
  data : RowData
  fee : ℚ
  closed_quantity : ℚ
  total_selling_price : ℚ
  deriving DecidableEq, Repr

/-- definitions.Field (CSV indices). -/
def F_TRADES : Nat := 0
def F_HEADER : Nat := 1
def F_DATA_DISCRIMINATOR : Nat := 2
def F_ASSET_CATEGORY : Nat := 3
def F_CURRENCY : Nat := 4
def F_SYMBOL : Nat := 5
def F_DATE_TIME : Nat := 6
def F_EXCHANGE : Nat := 7
def F_QUANTITY : Nat := 8
def F_TRANSACTION_PRICE : Nat := 9
def F_PROCEEDS : Nat := 10
def F_COMMISSION_AND_FEES : Nat := 11
def F_BASIS : Nat := 12
def F_REALIZED_PL : Nat := 13
def F_CODE : Nat := 14

/-- Python tuple indexing (`IndexError` outside the range). -/
def readIdx (items : List String) (i : Nat) : Except RErr String :=
  if i < items.length then .ok (items.getD i "") else .error .indexError

/-- trade.Trade._row_data. -/
def row_dataA (o : ReportOptionsA) (table : RateTable) (items : List String) :
    Except RErr RowData := do
  let symbol ← readIdx items (F_SYMBOL + o.offset)
  let date_str ← readIdx items (F_DATE_TIME + o.offset)
  let curTo ← readIdx items F_CURRENCY
  let rate ← get_rate table o.report_currency curTo date_str
  let rawPrice ← readIdx items (F_TRANSACTION_PRICE + o.offset)
  let pq ← decimal_cleanup rawPrice
  let price_per_share ← decDivE pq rate
  let rawQ ← readIdx items (F_QUANTITY + o.offset)
  let quantity ← decimal_cleanup rawQ
  .ok ⟨symbol, date_str, rate, price_per_share, quantity⟩

/-- trade.Trade.__init__: fee in the report currency; for a disposal
(negative quantity) the proceeds become the total selling price. -/
def trade_initA (o : ReportOptionsA) (table : RateTable) (items : List String) :
    Except RErr Trade := do
  let data ← row_dataA o table items
  let feeRaw ← readIdx items (F_COMMISSION_AND_FEES + o.offset)
  let feeQ ← decimal_cleanup feeRaw
  let fee ← decDivE feeQ data.rate
  let tsp ← if data.quantity < 0 then do
      let pr ← readIdx items (F_PROCEEDS + o.offset)
      let pq ← decimal_cleanup pr
      decDivE pq data.rate
    else .ok (0 : ℚ)
  .ok ⟨data, fee, 0, tsp⟩

/-- `Decimal(0.8)` constructed from the binary64 float `0.8` (exact value
`0.8000000000000000444089209850062616169452667236328125`). -/
def dec08 : ℚ := 3602879701896397 / 4503599627370496

/-- `Decimal(0.6)` constructed from the binary64 float `0.6` (exact value
`0.59999999999999997779553950749686919152736663818359375`). -/
def dec06 : ℚ := 5404319552844595 / 9007199254740992

/-- trade.Trade.deemed_profit: the profit allowed under the deemed
acquisition cost rule, `0.6 * sell_price` if the shares were held at least
ten years and `0.8 * sell_price` otherwise. -/
def deemed_profit (sell_price : ℚ) (buy_date sell_date : String) :
    Except RErr ℚ := do
  let b ← get_date buy_date
  let s ← get_date sell_date
  let multiplier : ℚ := if pdateLE b (add_years s (-10)) then dec06 else dec08
  .ok (decMul multiplier sell_price)

/-- trade.Trade.details_from_closed_lot (including `_validate_lot`): realized
gain or loss of one ClosedLot row against the open Trade, and the updated
Trade (its accumulated closed quantity). -/
def details_from_closed_lotA (o : ReportOptionsA) (table : RateTable)
    (t : Trade) (items : List String) : Except RErr (TradeDetails × Trade) := do
  let lot ← row_dataA o table items
  if t.data.symbol ≠ lot.symbol then
    .error (.symbolMismatch lot.date_str t.data.symbol lot.symbol)
  else if |decAdd t.data.quantity lot.quantity| > |t.data.quantity| then
    .error (.quantityMismatch lot.date_str lot.symbol)
  else do
    let sd0 := date_without_time t.data.date_str
    let bd0 := date_without_time lot.date_str
    -- Swap if closing a short position
    let sell_date := if lot.quantity < 0 then bd0 else sd0
    let buy_date := if lot.quantity < 0 then sd0 else bd0
    let unit_sell := if lot.quantity < 0 then lot.price_per_share else t.data.price_per_share
    let unit_buy := if lot.quantity < 0 then t.data.price_per_share else lot.price_per_share
    let cat ← readIdx items F_ASSET_CATEGORY
    -- One option represents 100 shares of the underlying stock
    let multiplier : ℚ := if cat = "Equity and Index Options" then 100 else 1
    let lot_sell_price := decMul (decMul |lot.quantity| unit_sell) multiplier
    let lot_buy_price := decMul (decMul |lot.quantity| unit_buy) multiplier
    let lot_fee ← decDivE (decMul lot.quantity t.fee) t.data.quantity
    let realized0 := decSub (decSub lot_sell_price lot_buy_price) lot_fee
    let realized ← if o.deemed_acquisition_cost then do
        let dp ← deemed_profit lot_sell_price buy_date sell_date
        .ok (min realized0 dp)
      else .ok realized0
    .ok (⟨lot.symbol, |lot.quantity|, buy_date, sell_date, lot_sell_price, realized⟩,
      { t with closed_quantity := decAdd t.closed_quantity lot.quantity })

/-! report.py: the Report facade / row-stream state machine (the later,
fields-based revision in the sources).  Its `Field` enumeration of logical
column names is not under src/ (src/ definitions.py still has the integer
version); the names are modelled from the spec. -/

/-- definitions._SINGLE_ACCOUNT: the canonical 15-column header row. -/
def singleAccountHeader : List String :=
  ["Trades", "Header", "DataDiscriminator", "Asset Category", "Currency",
   "Symbol", "Date/Time", "Exchange", "Quantity", "T. Price", "Proceeds",
   "Comm/Fee", "Basis", "Realized P/L", "Code"]

/-- definitions._MULTI_ACCOUNT: the canonical 16-column header row, with an
"Account" column inserted after "Currency". -/
def multiAccountHeader : List String :=
  ["Trades", "Header", "DataDiscriminator", "Asset Category", "Currency",
   "Account", "Symbol", "Date/Time", "Exchange", "Quantity", "T. Price",
   "Proceeds", "Comm/Fee", "Basis", "Realized P/L", "Code"]

/-- Modelled from the spec: the string values of the logical `Field`
enumeration used by report.py (src/ only carries the integer-valued
revision); the spec lists the logical columns by name as
`Trades, Header, DataDiscriminator, Asset Category, Currency, [Account,]
Symbol, Date/Time, Exchange, Quantity, T. Price, Proceeds, Comm/Fee, Basis,
Realized P/L, Code`, which are exactly the single-account header names. -/
def fieldNames : List String := singleAccountHeader

/-- `all(item in items for item in Field)` of report.Report._handle_one_line:
the row contains every logical field name. -/
def headerPred (items : List String) : Bool :=
  fieldNames.all (fun n => items.contains n)

def buildFieldsGo : List String → Nat → List (String × Nat) → List (String × Nat)
  | [], _, acc => acc
  | it :: rest, i, acc => buildFieldsGo rest (i + 1) (assocSet acc it i)

/-- `for index, item in enumerate(items): fields[item] = index`. -/
def buildFields (items : List String) : List (String × Nat) :=
  buildFieldsGo items 0 []

structure ReportOptionsB where
  report_currency : String
  deemed_acquisition_cost : Bool
  deriving DecidableEq, Repr

/-- report.Report state: totals, details, the header-derived field map and
the open trade. -/
structure RState where
  prices : ℚ
  gains : ℚ
  losses : ℚ
  details : List TradeDetails
  fields : List (String × Nat)
  trade : Option Trade
  deriving DecidableEq, Repr

/-- `items[self.options.fields[name]]` (KeyError on a missing name,
IndexError outside the row). -/
def readField (fields : List (String × Nat)) (items : List String)
    (name : String) : Except RErr String :=
  match lookupStr fields name with
  | some i => readIdx items i
  | none => .error (.keyError name)

/-- report.Report.is_stock_or_options_trade (short-circuit evaluation as in
the source conjunction). -/
def is_stock_or_options_trade (fields : List (String × Nat))
    (items : List String) : Except RErr Bool :=
  if fields.length = items.length then do
    let v ← readField fields items "Trades"
    if v = "Trades" then do
      let h ← readField fields items "Header"
      if h = "Data" then do
        let dd ← readField fields items "DataDiscriminator"
        if dd = "Trade" ∨ dd = "ClosedLot" then do
          let ac ← readField fields items "Asset Category"
          .ok (ac == "Stocks" || ac == "Equity and Index Options")
        else .ok false
      else .ok false
    else .ok false
  else .ok false

/-- Modelled from the spec: trade.Trade._row_data of the fields-based
revision (src/ trade.py is the offset revision embedded above; the spec
describes the same extraction keyed by logical column name). -/
def row_dataB (o : ReportOptionsB) (table : RateTable)
    (fields : List (String × Nat)) (items : List String) :
    Except RErr RowData := do
  let symbol ← readField fields items "Symbol"
  let date_str ← readField fields items "Date/Time"
  let curTo ← readField fields items "Currency"
  let rate ← get_rate table o.report_currency curTo date_str
  let rawPrice ← readField fields items "T. Price"
  let pq ← decimal_cleanup rawPrice
  let price_per_share ← decDivE pq rate
  let rawQ ← readField fields items "Quantity"
  let quantity ← decimal_cleanup rawQ
  .ok ⟨symbol, date_str, rate, price_per_share, quantity⟩

/-- Modelled from the spec: trade.Trade.__init__ of the fields-based
revision (same computation as `trade_initA`, column access by name). -/
def trade_initB (o : ReportOptionsB) (table : RateTable)
    (fields : List (String × Nat)) (items : List String) :
    Except RErr Trade := do
  let data ← row_dataB o table fields items
  let feeRaw ← readField fields items "Comm/Fee"
  let feeQ ← decimal_cleanup feeRaw
  let fee ← decDivE feeQ data.rate
  let tsp ← if data.quantity < 0 then do
      let pr ← readField fields items "Proceeds"
      let pq ← decimal_cleanup pr
      decDivE pq data.rate
    else .ok (0 : ℚ)
  .ok ⟨data, fee, 0, tsp⟩

/-- Modelled from the spec: trade.Trade.details_from_closed_lot of the
fields-based revision (same computation as `details_from_closed_lotA`,
column access by name). -/
def details_from_closed_lotB (o : ReportOptionsB) (table : RateTable)
    (fields : List (String × Nat)) (t : Trade) (items : List String) :
    Except RErr (TradeDetails × Trade) := do
  let lot ← row_dataB o table fields items
  if t.data.symbol ≠ lot.symbol then
    .error (.symbolMismatch lot.date_str t.data.symbol lot.symbol)
  else if |decAdd t.data.quantity lot.quantity| > |t.data.quantity| then
    .error (.quantityMismatch lot.date_str lot.symbol)
  else do
    let sd0 := date_without_time t.data.date_str
    let bd0 := date_without_time lot.date_str
    let sell_date := if lot.quantity < 0 then bd0 else sd0
    let buy_date := if lot.quantity < 0 then sd0 else bd0
    let unit_sell := if lot.quantity < 0 then lot.price_per_share else t.data.price_per_share
    let unit_buy := if lot.quantity < 0 then t.data.price_per_share else lot.price_per_share
    let cat ← readField fields items "Asset Category"
    let multiplier : ℚ := if cat = "Equity and Index Options" then 100 else 1
    let lot_sell_price := decMul (decMul |lot.quantity| unit_sell) multiplier
    let lot_buy_price := decMul (decMul |lot.quantity| unit_buy) multiplier
    let lot_fee ← decDivE (decMul lot.quantity t.fee) t.data.quantity
    let realized0 := decSub (decSub lot_sell_price lot_buy_price) lot_fee
    let realized ← if o.deemed_acquisition_cost then do
        let dp ← deemed_profit lot_sell_price buy_date sell_date
        .ok (min realized0 dp)
      else .ok realized0
    .ok (⟨lot.symbol, |lot.quantity|, buy_date, sell_date, lot_sell_price, realized⟩,
      { t with closed_quantity := decAdd t.closed_quantity lot.quantity })

/-- report.Report._handle_trade: a Trade row opens a new trade and adds its
selling price to the proceeds; a ClosedLot row without an open trade is a
fatal error, otherwise its realized result is routed into gains or losses. -/
def handle_trade (o : ReportOptionsB) (table : RateTable) (s : RState)
    (items : List String) : Except RErr RState := do
  let dd ← readField s.fields items "DataDiscriminator"
  let s1 ← if dd = "Trade" then do
      let t ← trade_initB o table s.fields items
      .ok { s with trade := some t, prices := decAdd s.prices t.total_selling_price }
    else .ok s
  if dd = "ClosedLot" then
    match s1.trade with
    | none => .error .closedLotWithoutTrade
    | some t => do
      let (d, t2) ← details_from_closed_lotB o table s1.fields t items
      let s2 := if d.realized > 0 then { s1 with gains := decAdd s1.gains d.realized }
        else { s1 with losses := decSub s1.losses d.realized }
      .ok { s2 with details := s2.details ++ [d], trade := some t2 }
  else .ok s1

/-- report.Report._handle_one_line: a row containing every field name
re-derives the layout and clears the open trade; otherwise, once a layout
exists, stock/options trade rows are processed and everything else is
ignored. -/
def handle_one_line (o : ReportOptionsB) (table : RateTable) (s : RState)
    (items : List String) : Except RErr RState :=
  if headerPred items then
    .ok { s with fields := buildFields items, trade := none }
  else if s.fields ≠ [] then do
    let b ← is_stock_or_options_trade s.fields items
    if b then handle_trade o table s items else .ok s
  else .ok s

/-- report.Report.add_trades: fold the row stream through the state machine
(csv decoding is outside the model; rows arrive as string lists). -/
def add_trades (o : ReportOptionsB) (table : RateTable) :
    List (List String) → RState → Except RErr RState
  | [], s => .ok s
  | r :: rs, s => do add_trades o table rs (← handle_one_line o table s r)

def initState : RState := ⟨0, 0, 0, [], [], none⟩

/-! tools.Cache and storage.Storage. -/

def MAXCACHE : Nat := 10

def cache_get {α : Type} (c : List (String × α)) (k : String) : Option α :=
  lookupStr c k

/-- tools.Cache.set: when inserting a new key into a full cache the first
(oldest inserted) key is removed. -/
def cache_set {α : Type} (c : List (String × α)) (k : String) (v : α) :
    List (String × α) :=
  let c1 := if (lookupStr c k).isNone ∧ MAXCACHE ≤ c.length then c.drop 1 else c
  assocSet c1 k v

abbrev CurrencyDict := RateTable

/-- storage.Storage.save (cache side: the backend write has no observable
effect on the model state). -/
def storage_save (useCache : Bool) (c : List (String × CurrencyDict))
    (filename : String) (content : CurrencyDict) : List (String × CurrencyDict) :=
  if useCache then cache_set c filename content else c

structure LoadResult where
  value : CurrencyDict
  backendCalled : Bool
  cacheAfter : List (String × CurrencyDict)
  deriving DecidableEq, Repr

/-- The backend branch of storage.Storage.load: return the backend result
and cache it when it is truthy and caching is on. -/
def storage_load_backend (useCache : Bool) (backendLoad : String → CurrencyDict)
    (c : List (String × CurrencyDict)) (filename : String) : LoadResult :=
  ⟨backendLoad filename, true,
    if backendLoad filename ≠ [] ∧ useCache then cache_set c filename (backendLoad filename)
    else c⟩

/-- storage.Storage.load: a truthy (non-empty) cached value is returned
without calling the backend; otherwise the backend result is returned and
cached only when truthy. -/
def storage_load (useCache : Bool) (backendLoad : String → CurrencyDict)
    (c : List (String × CurrencyDict)) (filename : String) : LoadResult :=
  if useCache then
    match cache_get c filename with
    | some content =>
      if content ≠ [] then ⟨content, false, c⟩
      else storage_load_backend useCache backendLoad c filename
    | none => storage_load_backend useCache backendLoad c filename
  else storage_load_backend useCache backendLoad c filename

/-- The final-realized formula exactly as the specification words it (for
comparison with the code): deemed cost `factor * sell_price` with
`factor = 0.6` for a ten-year holding else `0.8`, and final realized
`min(realized, sell_price - deemed)`. -/
def specDeemedRealized (realized lot_sell_price : ℚ) (longHeld : Bool) : ℚ :=
  let factor : ℚ := if longHeld then 6 / 10 else 8 / 10
  min realized (lot_sell_price - factor * lot_sell_price)

/-! Concrete inputs used by witnesses and counterexamples. -/

def optsA0 : ReportOptionsA := ⟨"EUR", true, 0⟩

def optsBon : ReportOptionsB := ⟨"EUR", true⟩

def optsBoff : ReportOptionsB := ⟨"EUR", false⟩

/-- A single-account header row with the "Exchange" and "Code" columns
swapped: it contains every field name but matches neither canonical shape. -/
def permutedHeaderRow : List String :=
  ["Trades", "Header", "DataDiscriminator", "Asset Category", "Currency",
   "Symbol", "Date/Time", "Code", "Quantity", "T. Price", "Proceeds",
   "Comm/Fee", "Basis", "Realized P/L", "Exchange"]

/-- A disposal Trade row: sell 10 FOO at 10 EUR (proceeds 100, no fee). -/
def tradeRowSell : List String :=
  ["Trades", "Data", "Trade", "Stocks", "EUR", "FOO", "2021-01-02, 10:00:00",
   "-", "-10", "10", "100", "0", "", "", ""]

/-- A matching ClosedLot row: 10 FOO bought at 2 EUR. -/
def lotRowBuy : List String :=
  ["Trades", "Data", "ClosedLot", "Stocks", "EUR", "FOO",
   "2020-01-02, 10:00:00", "-", "10", "2", "", "", "", "", ""]

/-- An acquisition Trade row: buy 10 FOO at 10 EUR. -/
def tradeRowBuy : List String :=
  ["Trades", "Data", "Trade", "Stocks", "EUR", "FOO", "2021-01-02, 10:00:00",
   "-", "10", "10", "-100", "0", "", "", ""]

/-- A closing lot of -6 FOO against the acquisition trade. -/
def lotRowClose6 : List String :=
  ["Trades", "Data", "ClosedLot", "Stocks", "EUR", "FOO",
   "2020-01-02, 10:00:00", "-", "-6", "2", "", "", "", "", ""]

/-- A closing lot of -25 FOO (more than the trade opened). -/
def lotRowClose25 : List String :=
  ["Trades", "Data", "ClosedLot", "Stocks", "EUR", "FOO",
   "2020-01-02, 10:00:00", "-", "-25", "2", "", "", "", "", ""]

/-- Feeding the ClosedLot row of -6 twice to a Trade that opened +10:
the resulting accumulated closed quantity. -/
def c1TwoLots : Except RErr ℚ := do
  let t ← trade_initA optsA0 [] tradeRowBuy
  let r1 ← details_from_closed_lotA optsA0 [] t lotRowClose6
  let r2 ← details_from_closed_lotA optsA0 [] r1.2 lotRowClose6
  .ok r2.2.closed_quantity

/-- The realized result the code computes for `tradeRowSell` closed by
`lotRowBuy` with deemed acquisition cost enabled. -/
def c2Realized : Except RErr ℚ := do
  let t ← trade_initA optsA0 [] tradeRowSell
  let r ← details_from_closed_lotA optsA0 [] t lotRowBuy
  .ok r.1.realized

/-- The state after processing the canonical single-account header. -/
def headerState : RState :=
  { initState with fields := buildFields singleAccountHeader, trade := none }

/-- Gains-comparison invariant between the deemed-cost run and the plain run
of the report state machine. -/
def GainsInv (s1 s2 : RState) : Prop :=
  s1.fields = s2.fields ∧ s1.trade = s2.trade ∧ s1.prices = s2.prices ∧
    s1.gains ≤ s2.gains ∧ round28 s1.gains = s1.gains ∧
    round28 s2.gains = s2.gains ∧ 0 ≤ s1.gains ∧ 0 ≤ s2.gains

/-- A rate table with a single AAA entry of 3 EUR on one date. -/
def c7Table : RateTable := [("2021-01-04", [("AAA", "3")])]

/-! Lemmas about the decimal rounding model. -/

theorem qpow10_eq_zpow (k : Int) : qpow10 k = (10 : ℚ) ^ k := by
  unfold qpow10
  split
  · next h =>
    rw [show ((10 ^ k.toNat : Nat) : ℚ) = (10 : ℚ) ^ k.toNat by push_cast; ring]
    rw [← zpow_natCast, Int.toNat_of_nonneg h]
  · next h =>
    rw [show ((10 ^ (-k).toNat : Nat) : ℚ) = (10 : ℚ) ^ (-k).toNat by push_cast; ring]
    rw [← zpow_natCast, Int.toNat_of_nonneg (by omega), ← zpow_neg, neg_neg]

theorem qpow10_pos (k : Int) : 0 < qpow10 k := by
  rw [qpow10_eq_zpow]; exact zpow_pos (by norm_num) k

theorem qpow10_ne_zero (k : Int) : qpow10 k ≠ 0 := ne_of_gt (qpow10_pos k)

theorem qpow10_add (a b : Int) : qpow10 (a + b) = qpow10 a * qpow10 b := by
  rw [qpow10_eq_zpow, qpow10_eq_zpow, qpow10_eq_zpow]
  exact zpow_add₀ (by norm_num) a b

theorem qpow10_mono {a b : Int} (h : a ≤ b) : qpow10 a ≤ qpow10 b := by
  rw [qpow10_eq_zpow, qpow10_eq_zpow]
  exact zpow_le_zpow_right₀ (by norm_num) h

theorem digCount_spec : ∀ fuel n, n < fuel → 0 < n →
    0 < digCount fuel n ∧ 10 ^ (digCount fuel n - 1) ≤ n ∧ n < 10 ^ digCount fuel n := by
  intro fuel
  induction fuel with
  | zero => intro n h _; omega
  | succ f ih =>
    intro n hlt hpos
    by_cases h : n < 10
    · simp only [digCount, h, if_true]
      refine ⟨by omega, by simpa using hpos, by simpa using h⟩
    · have hdiv : n / 10 < n := Nat.div_lt_self hpos (by norm_num)
      have hrec : n / 10 < f := by omega
      have hq : 0 < n / 10 := (Nat.le_div_iff_mul_le (by norm_num)).mpr (by omega)
      obtain ⟨p1, p2, p3⟩ := ih (n / 10) hrec hq
      simp only [digCount, h, if_false]
      set d := digCount f (n / 10) with hd
      have e1 : (10 : Nat) ^ d = 10 ^ (d - 1) * 10 := by
        rw [← pow_succ]; congr 1; omega
      have e2 : (10 : Nat) ^ (d + 1) = 10 ^ d * 10 := by rw [← pow_succ]
      have hmod := Nat.div_add_mod n 10
      have hm : n % 10 < 10 := Nat.mod_lt n (by norm_num)
      refine ⟨by omega, ?_, ?_⟩
      · have : 10 ^ (d - 1) * 10 ≤ (n / 10) * 10 := by
          exact Nat.mul_le_mul_right 10 p2
        have hle : n / 10 * 10 ≤ n := Nat.div_mul_le_self n 10
        simp only [Nat.add_sub_cancel]
        omega
      · have : (n / 10 + 1) * 10 ≤ 10 ^ d * 10 := Nat.mul_le_mul_right 10 (by omega)
        omega

theorem digits10_spec (n : Nat) (h : 0 < n) :
    0 < digits10 n ∧ 10 ^ (digits10 n - 1) ≤ n ∧ n < 10 ^ digits10 n :=
  digCount_spec (n + 1) n (Nat.lt_succ_self n) h

theorem abs_as_natAbs_div (x : ℚ) : |x| = ((x.num.natAbs : ℚ)) / ((x.den : ℚ)) := by
  have h := Rat.num_div_den x
  have hden : (0 : ℚ) < ((x.den : ℚ)) := by exact_mod_cast x.pos
  calc |x| = |(x.num : ℚ) / (x.den : ℚ)| := by rw [h]
    _ = |(x.num : ℚ)| / |(x.den : ℚ)| := abs_div _ _
    _ = ((x.num.natAbs : ℚ)) / ((x.den : ℚ)) := by
        rw [abs_of_pos hden, Int.cast_natAbs, Int.cast_abs]

theorem flogNum_spec (x : ℚ) (hx : x ≠ 0) :
    qpow10 (flogNum x) ≤ |x| ∧ |x| < qpow10 (flogNum x + 1) := by
  have hp : 0 < x.num.natAbs := Int.natAbs_pos.mpr (Rat.num_ne_zero.mpr hx)
  have hq : 0 < x.den := x.pos
  obtain ⟨dp1, dp2, dp3⟩ := digits10_spec x.num.natAbs hp
  obtain ⟨dq1, dq2, dq3⟩ := digits10_spec x.den hq
  have hqQ : (0 : ℚ) < ((x.den : ℚ)) := by exact_mod_cast hq
  have habs : |x| = ((x.num.natAbs : ℚ)) / ((x.den : ℚ)) := abs_as_natAbs_div x
  set p : Nat := x.num.natAbs with hpdef
  set q : Nat := x.den with hqdef
  set c : Int := (digits10 p : Int) - (digits10 q : Int) with hcdef
  have hup : |x| < qpow10 (c + 1) := by
    rw [habs, qpow10_eq_zpow, div_lt_iff hqQ]
    have h1 : ((p : ℚ)) < (10 : ℚ) ^ (digits10 p) := by exact_mod_cast dp3
    have h2 : (10 : ℚ) ^ (digits10 q - 1) ≤ ((q : ℚ)) := by exact_mod_cast dq2
    have hsplit : (10 : ℚ) ^ (digits10 p) = (10 : ℚ) ^ (c + 1) * (10 : ℚ) ^ (digits10 q - 1) := by
      rw [← zpow_natCast (10 : ℚ) (digits10 p), ← zpow_natCast (10 : ℚ) (digits10 q - 1),
        ← zpow_add₀ (by norm_num : (10 : ℚ) ≠ 0)]
      congr 1
      omega
    calc ((p : ℚ)) < (10 : ℚ) ^ (digits10 p) := h1
      _ = (10 : ℚ) ^ (c + 1) * (10 : ℚ) ^ (digits10 q - 1) := hsplit
      _ ≤ (10 : ℚ) ^ (c + 1) * ((q : ℚ)) := by
          exact mul_le_mul_of_nonneg_left h2 (le_of_lt (zpow_pos (by norm_num) _))
  have hlow : qpow10 (c - 1) < |x| := by
    rw [habs, qpow10_eq_zpow, lt_div_iff hqQ]
    have h1 : (10 : ℚ) ^ (digits10 p - 1) ≤ ((p : ℚ)) := by exact_mod_cast dp2
    have h2 : ((q : ℚ)) < (10 : ℚ) ^ (digits10 q) := by exact_mod_cast dq3
    have hsplit : (10 : ℚ) ^ (digits10 p - 1) = (10 : ℚ) ^ (c - 1) * (10 : ℚ) ^ (digits10 q) := by
      rw [← zpow_natCast (10 : ℚ) (digits10 p - 1), ← zpow_natCast (10 : ℚ) (digits10 q),
        ← zpow_add₀ (by norm_num : (10 : ℚ) ≠ 0)]
      congr 1
      omega
    calc (10 : ℚ) ^ (c - 1) * ((q : ℚ)) < (10 : ℚ) ^ (c - 1) * (10 : ℚ) ^ (digits10 q) := by
          exact mul_lt_mul_of_pos_left h2 (zpow_pos (by norm_num) _)
      _ = (10 : ℚ) ^ (digits10 p - 1) := hsplit.symm
      _ ≤ ((p : ℚ)) := h1
  set b : Bool := (if 0 ≤ c then decide (p < 10 ^ c.toNat * q)
    else decide (p * 10 ^ (-c).toNat < q)) with hbdef
  have hlt_iff : b = true ↔ |x| < qpow10 c := by
    by_cases h0 : 0 ≤ c
    · rw [hbdef]
      simp only [h0, if_true, decide_eq_true_eq]
      have hqc : qpow10 c = ((10 ^ c.toNat : Nat) : ℚ) := by
        unfold qpow10; rw [if_pos h0]
      rw [hqc, habs, div_lt_iff hqQ]
      constructor
      · intro h
        exact_mod_cast (by exact_mod_cast h : ((p : ℚ)) < ((10 ^ c.toNat * q : Nat) : ℚ))
      · intro h
        exact_mod_cast (by exact_mod_cast h : ((p : ℚ)) < ((10 ^ c.toNat * q : Nat) : ℚ))
    · rw [hbdef]
      simp only [h0, if_false, decide_eq_true_eq]
      have hqc : qpow10 c = (((10 ^ (-c).toNat : Nat) : ℚ))⁻¹ := by
        unfold qpow10; rw [if_neg h0]
      have hpow : (0 : ℚ) < ((10 ^ (-c).toNat : Nat) : ℚ) := by positivity
      rw [hqc, habs, div_lt_iff hqQ]
      rw [show (((10 ^ (-c).toNat : Nat) : ℚ))⁻¹ * ((q : ℚ))
            = ((q : ℚ)) / ((10 ^ (-c).toNat : Nat) : ℚ) by ring]
      rw [lt_div_iff hpow]
      constructor
      · intro h; exact_mod_cast h
      · intro h; exact_mod_cast h
  have hflog : flogNum x = if b = true then c - 1 else c := by
    rw [hbdef, hcdef, hpdef, hqdef]
    rfl
  by_cases hbt : b = true
  · rw [hflog, if_pos hbt]
    have hxc := hlt_iff.mp hbt
    exact ⟨le_of_lt hlow, by simpa using hxc⟩
  · rw [hflog, if_neg hbt]
    have hxc : ¬ |x| < qpow10 c := fun hc => hbt (hlt_iff.mpr hc)
    exact ⟨not_lt.mp hxc, hup⟩

theorem flogNum_unique (x : ℚ) (hx : x ≠ 0) (k : Int)
    (h1 : qpow10 k ≤ |x|) (h2 : |x| < qpow10 (k + 1)) : flogNum x = k := by
  obtain ⟨s1, s2⟩ := flogNum_spec x hx
  by_contra hne
  rcases lt_or_gt_of_ne hne with hlt | hgt
  · have : qpow10 (flogNum x + 1) ≤ qpow10 k := qpow10_mono (by omega)
    linarith
  · have : qpow10 (k + 1) ≤ qpow10 (flogNum x) := qpow10_mono (by omega)
    linarith

theorem rhe_intCast (n : Int) : rhe ((n : ℚ)) = n := by
  unfold rhe
  simp [Int.floor_intCast]

theorem rhe_cases (x : ℚ) : rhe x = ⌊x⌋ ∨ rhe x = ⌊x⌋ + 1 := by
  unfold rhe
  split_ifs <;> simp

theorem rhe_ge (x : ℚ) : x - 1 / 2 ≤ ((rhe x : ℚ)) := by
  have h1 := Int.floor_le x
  have h2 := Int.lt_floor_add_one x
  unfold rhe
  split_ifs with hfr hfr2 hpar <;> push_cast <;> linarith

theorem rhe_le (x : ℚ) : ((rhe x : ℚ)) ≤ x + 1 / 2 := by
  have h1 := Int.floor_le x
  have h2 := Int.lt_floor_add_one x
  unfold rhe
  split_ifs with hfr hfr2 hpar <;> push_cast <;> linarith

theorem rhe_mono {x y : ℚ} (h : x ≤ y) : rhe x ≤ rhe y := by
  have hf : ⌊x⌋ ≤ ⌊y⌋ := Int.floor_mono h
  rcases lt_or_eq_of_le hf with hlt | heq
  · have c1 := rhe_cases x
    have c2 := rhe_cases y
    omega
  · have h1 := Int.floor_le x
    have h2 := Int.lt_floor_add_one x
    have h3 := Int.floor_le y
    unfold rhe
    rw [← heq]
    split_ifs with a1 a2 a3 b1 b2 b3 b4 b5 b6 <;> first | omega | linarith

theorem rheInt_eq_rhe (p : Int) (q : Nat) (hq : 0 < q) :
    rheInt p q = rhe (((p : ℚ)) / ((q : ℚ))) := by
  have hqz : ((q : Int)) ≠ 0 := by exact_mod_cast Nat.pos_iff_ne_zero.mp hq
  have hqQ : (0 : ℚ) < ((q : ℚ)) := by exact_mod_cast hq
  have hfloor : ⌊((p : ℚ)) / ((q : ℚ))⌋ = p / ((q : Int)) := by
    exact_mod_cast Rat.floor_intCast_div_natCast p q
  have hmod := Int.ediv_add_emod p ((q : Int))
  have hr0 : 0 ≤ p % ((q : Int)) := Int.emod_nonneg p hqz
  have hrq : p % ((q : Int)) < ((q : Int)) := Int.emod_lt_of_pos p (by exact_mod_cast hq)
  have hfr : ((p : ℚ)) / ((q : ℚ)) - ((p / ((q : Int)) : Int) : ℚ)
      = ((p % ((q : Int)) : Int) : ℚ) / ((q : ℚ)) := by
    have hpq : ((p : ℚ)) = ((q : ℚ)) * ((p / ((q : Int)) : Int) : ℚ)
        + ((p % ((q : Int)) : Int) : ℚ) := by
      exact_mod_cast congrArg (fun z : Int => ((z : ℚ))) hmod.symm
    field_simp [hpq]
  have hlt_iff : ((p % ((q : Int)) : Int) : ℚ) / ((q : ℚ)) < 1 / 2
      ↔ 2 * (p % ((q : Int))) < ((q : Int)) := by
    rw [div_lt_iff hqQ]
    constructor
    · intro h
      have : ((2 * (p % ((q : Int))) : Int) : ℚ) < ((q : Int) : ℚ) := by push_cast; linarith
      exact_mod_cast this
    · intro h
      have : ((2 * (p % ((q : Int))) : Int) : ℚ) < ((q : Int) : ℚ) := by exact_mod_cast h
      push_cast at this
      linarith
  have hgt_iff : 1 / 2 < ((p % ((q : Int)) : Int) : ℚ) / ((q : ℚ))
      ↔ ((q : Int)) < 2 * (p % ((q : Int))) := by
    rw [lt_div_iff hqQ]
    constructor
    · intro h
      have : ((q : Int) : ℚ) < ((2 * (p % ((q : Int))) : Int) : ℚ) := by push_cast; linarith
      exact_mod_cast this
    · intro h
      have : ((q : Int) : ℚ) < ((2 * (p % ((q : Int))) : Int) : ℚ) := by exact_mod_cast h
      push_cast at this
      linarith
  unfold rheInt rhe
  rw [hfloor, hfr]
  simp only [hlt_iff, hgt_iff]

theorem num_as_mul_den (x : ℚ) : ((x.num : ℚ)) = x * ((x.den : ℚ)) := by
  have h := Rat.num_div_den x
  have hden : ((x.den : ℚ)) ≠ 0 := by
    exact_mod_cast Nat.pos_iff_ne_zero.mp x.pos
  rw [div_eq_iff hden] at h
  exact h

theorem round28_pos_eq (x : ℚ) (hx : 0 < x) :
    round28 x = ((rhe (x * qpow10 (27 - flogNum x)) : ℚ)) / qpow10 (27 - flogNum x) := by
  have hne : x ≠ 0 := ne_of_gt hx
  unfold round28
  rw [if_neg hne]
  by_cases h0 : 0 ≤ 27 - flogNum x
  · rw [if_pos h0]
    have hq : qpow10 (27 - flogNum x) = (((10 ^ (27 - flogNum x).toNat : Nat) : ℚ)) := by
      unfold qpow10; rw [if_pos h0]
    have hden : ((x.den : ℚ)) ≠ 0 := by
      exact_mod_cast Nat.pos_iff_ne_zero.mp x.pos
    have harg : (((x.num * ((10 ^ (27 - flogNum x).toNat : Nat) : Int) : Int) : ℚ))
        / ((x.den : ℚ)) = x * qpow10 (27 - flogNum x) := by
      rw [hq]
      push_cast
      rw [div_eq_iff hden, num_as_mul_den x]
      ring
    rw [rheInt_eq_rhe _ _ x.pos, harg, ← hq]
  · rw [if_neg h0]
    have hq : qpow10 (27 - flogNum x)
        = ((((10 ^ (-(27 - flogNum x)).toNat : Nat) : ℚ)))⁻¹ := by
      unfold qpow10; rw [if_neg h0]
    have hden2 : 0 < x.den * 10 ^ (-(27 - flogNum x)).toNat :=
      Nat.mul_pos x.pos (Nat.pos_pow_of_pos _ (by norm_num))
    have hden : ((x.den : ℚ)) ≠ 0 := by
      exact_mod_cast Nat.pos_iff_ne_zero.mp x.pos
    have harg : ((x.num : ℚ)) / (((x.den * 10 ^ (-(27 - flogNum x)).toNat : Nat) : ℚ))
        = x * qpow10 (27 - flogNum x) := by
      rw [hq]
      push_cast
      have hprod : ((x.den : ℚ)) * ((10 : ℚ)) ^ (-(27 - flogNum x)).toNat ≠ 0 := by positivity
      rw [div_eq_iff hprod, num_as_mul_den x]
      field_simp
      rw [num_as_mul_den x]
      ring
    rw [rheInt_eq_rhe _ _ hden2, harg, hq, div_eq_mul_inv, inv_inv]

theorem scaled_bounds (x : ℚ) (hx : 0 < x) :
    qpow10 27 ≤ x * qpow10 (27 - flogNum x) ∧
      x * qpow10 (27 - flogNum x) < qpow10 28 := by
  obtain ⟨h1, h2⟩ := flogNum_spec x (ne_of_gt hx)
  rw [abs_of_pos hx] at h1 h2
  have hp := qpow10_pos (27 - flogNum x)
  constructor
  · calc qpow10 27 = qpow10 (flogNum x) * qpow10 (27 - flogNum x) := by
          rw [← qpow10_add]; congr 1; omega
      _ ≤ x * qpow10 (27 - flogNum x) := by
          exact mul_le_mul_of_nonneg_right h1 (le_of_lt hp)
  · calc x * qpow10 (27 - flogNum x)
        < qpow10 (flogNum x + 1) * qpow10 (27 - flogNum x) := by
          exact mul_lt_mul_of_pos_right h2 hp
      _ = qpow10 28 := by rw [← qpow10_add]; congr 1; omega

theorem rhe_scaled_bounds (x : ℚ) (hx : 0 < x) :
    (10 ^ 27 : Int) ≤ rhe (x * qpow10 (27 - flogNum x)) ∧
      rhe (x * qpow10 (27 - flogNum x)) ≤ (10 ^ 28 : Int) := by
  obtain ⟨h1, h2⟩ := scaled_bounds x hx
  have hg := rhe_ge (x * qpow10 (27 - flogNum x))
  have hl := rhe_le (x * qpow10 (27 - flogNum x))
  have hq27 : qpow10 27 = (((10 ^ 27 : Int) : ℚ)) := by
    rw [qpow10_eq_zpow]; norm_num
  have hq28 : qpow10 28 = (((10 ^ 28 : Int) : ℚ)) := by
    rw [qpow10_eq_zpow]; norm_num
  constructor
  · have : (((10 ^ 27 - 1 : Int) : ℚ)) < ((rhe (x * qpow10 (27 - flogNum x)) : ℚ)) := by
      push_cast
      rw [hq27] at h1
      push_cast at h1
      linarith
    have h4 : (10 ^ 27 - 1 : Int) < rhe (x * qpow10 (27 - flogNum x)) := by
      exact_mod_cast this
    omega
  · have : ((rhe (x * qpow10 (27 - flogNum x)) : ℚ)) < (((10 ^ 28 + 1 : Int) : ℚ)) := by
      push_cast
      rw [hq28] at h2
      push_cast at h2
      linarith
    have h3 : rhe (x * qpow10 (27 - flogNum x)) < 10 ^ 28 + 1 := by exact_mod_cast this
    omega

theorem round28_bounds (x : ℚ) (hx : 0 < x) :
    qpow10 (flogNum x) ≤ round28 x ∧ round28 x ≤ qpow10 (flogNum x + 1) := by
  rw [round28_pos_eq x hx]
  obtain ⟨hb1, hb2⟩ := rhe_scaled_bounds x hx
  have hp := qpow10_pos (27 - flogNum x)
  have hq27 : qpow10 27 = (((10 ^ 27 : Int) : ℚ)) := by
    rw [qpow10_eq_zpow]; norm_num
  have hq28 : qpow10 28 = (((10 ^ 28 : Int) : ℚ)) := by
    rw [qpow10_eq_zpow]; norm_num
  constructor
  · rw [le_div_iff hp]
    calc qpow10 (flogNum x) * qpow10 (27 - flogNum x) = qpow10 27 := by
          rw [← qpow10_add]; congr 1; omega
      _ = (((10 ^ 27 : Int) : ℚ)) := hq27
      _ ≤ ((rhe (x * qpow10 (27 - flogNum x)) : ℚ)) := by exact_mod_cast hb1
  · rw [div_le_iff hp]
    calc ((rhe (x * qpow10 (27 - flogNum x)) : ℚ)) ≤ (((10 ^ 28 : Int) : ℚ)) := by
          exact_mod_cast hb2
      _ = qpow10 28 := hq28.symm
      _ = qpow10 (flogNum x + 1) * qpow10 (27 - flogNum x) := by
          rw [← qpow10_add]; congr 1; omega

theorem round28_pos (x : ℚ) (hx : 0 < x) : 0 < round28 x :=
  lt_of_lt_of_le (qpow10_pos (flogNum x)) (round28_bounds x hx).1

theorem round28_zero : round28 0 = 0 := by
  unfold round28
  simp

theorem round28_mono_pos {x y : ℚ} (hx : 0 < x) (h : x ≤ y) :
    round28 x ≤ round28 y := by
  have hy : 0 < y := lt_of_lt_of_le hx h
  have hfm : flogNum x ≤ flogNum y := by
    by_contra hc
    push_neg at hc
    obtain ⟨sx1, sx2⟩ := flogNum_spec x (ne_of_gt hx)
    obtain ⟨sy1, sy2⟩ := flogNum_spec y (ne_of_gt hy)
    rw [abs_of_pos hx] at sx1 sx2
    rw [abs_of_pos hy] at sy1 sy2
    have : qpow10 (flogNum y + 1) ≤ qpow10 (flogNum x) := qpow10_mono (by omega)
    linarith
  rcases lt_or_eq_of_le hfm with hlt | heq
  · obtain ⟨bx1, bx2⟩ := round28_bounds x hx
    obtain ⟨by1, by2⟩ := round28_bounds y hy
    have : qpow10 (flogNum x + 1) ≤ qpow10 (flogNum y) := qpow10_mono (by omega)
    linarith
  · rw [round28_pos_eq x hx, round28_pos_eq y hy, ← heq]
    have hp := qpow10_pos (27 - flogNum x)
    refine (div_le_div_right hp).mpr ?_
    exact_mod_cast rhe_mono (mul_le_mul_of_nonneg_right h (le_of_lt hp))

theorem qpow10_lt {a b : Int} (h : a < b) : qpow10 a < qpow10 b := by
  rw [qpow10_eq_zpow, qpow10_eq_zpow]
  exact zpow_lt_zpow_right₀ (by norm_num) h

theorem qpow10_27_cast : qpow10 27 = (((10 ^ 27 : Int) : ℚ)) := by
  rw [qpow10_eq_zpow]; norm_num

theorem qpow10_28_cast : qpow10 28 = (((10 ^ 28 : Int) : ℚ)) := by
  rw [qpow10_eq_zpow]; norm_num

theorem round28_fix_pos (x : ℚ) (hx : 0 < x) : round28 (round28 x) = round28 x := by
  have hPp : 0 < qpow10 (27 - flogNum x) := qpow10_pos _
  have heq := round28_pos_eq x hx
  obtain ⟨hb1, hb2⟩ := rhe_scaled_bounds x hx
  have hypos : 0 < round28 x := round28_pos x hx
  rcases lt_or_eq_of_le hb2 with hlt | heqc
  · have hflogy : flogNum (round28 x) = flogNum x := by
      apply flogNum_unique _ (ne_of_gt hypos)
      · rw [abs_of_pos hypos, heq, le_div_iff hPp]
        calc qpow10 (flogNum x) * qpow10 (27 - flogNum x) = qpow10 27 := by
              rw [← qpow10_add]; congr 1; omega
          _ = (((10 ^ 27 : Int) : ℚ)) := qpow10_27_cast
          _ ≤ ((rhe (x * qpow10 (27 - flogNum x)) : ℚ)) := by exact_mod_cast hb1
      · rw [abs_of_pos hypos, heq, div_lt_iff hPp]
        calc ((rhe (x * qpow10 (27 - flogNum x)) : ℚ)) < (((10 ^ 28 : Int) : ℚ)) := by
              exact_mod_cast hlt
          _ = qpow10 28 := qpow10_28_cast.symm
          _ = qpow10 (flogNum x + 1) * qpow10 (27 - flogNum x) := by
              rw [← qpow10_add]; congr 1; omega
    rw [round28_pos_eq _ hypos, hflogy]
    rw [show round28 x * qpow10 (27 - flogNum x)
          = ((rhe (x * qpow10 (27 - flogNum x)) : ℚ)) by
        rw [heq, div_mul_cancel₀ _ (ne_of_gt hPp)]]
    rw [rhe_intCast, ← heq]
  · have hyval : round28 x = qpow10 (flogNum x + 1) := by
      rw [heq, heqc]
      rw [show (((10 ^ 28 : Int) : ℚ)) = qpow10 28 from qpow10_28_cast.symm]
      rw [div_eq_iff (ne_of_gt hPp), ← qpow10_add]
      congr 1
      omega
    have hflogy : flogNum (round28 x) = flogNum x + 1 := by
      apply flogNum_unique _ (ne_of_gt hypos)
      · rw [abs_of_pos hypos, hyval]
      · rw [abs_of_pos hypos, hyval]
        exact qpow10_lt (by omega)
    rw [round28_pos_eq _ hypos, hflogy, hyval]
    rw [show qpow10 (flogNum x + 1) * qpow10 (27 - (flogNum x + 1))
          = (((10 ^ 27 : Int) : ℚ)) by
        rw [← qpow10_add, ← qpow10_27_cast]; congr 1; omega]
    rw [rhe_intCast]
    rw [div_eq_iff (ne_of_gt (qpow10_pos (27 - (flogNum x + 1)))), ← qpow10_27_cast,
      ← qpow10_add]
    congr 1
    omega

theorem round28_mono_nonneg {x y : ℚ} (hx : 0 ≤ x) (h : x ≤ y) :
    round28 x ≤ round28 y := by
  rcases eq_or_lt_of_le hx with h0 | hp
  · rw [← h0, round28_zero]
    rcases eq_or_lt_of_le (le_trans hx h) with h1 | h1
    · rw [← h1, round28_zero]
    · exact le_of_lt (round28_pos y h1)
  · exact round28_mono_pos hp h

theorem round28_fix_nonneg {x : ℚ} (hx : 0 ≤ x) :
    round28 (round28 x) = round28 x := by
  rcases eq_or_lt_of_le hx with h0 | hp
  · rw [← h0, round28_zero, round28_zero]
  · exact round28_fix_pos x hp

theorem round28_nonneg {x : ℚ} (hx : 0 ≤ x) : 0 ≤ round28 x := by
  rcases eq_or_lt_of_le hx with h0 | hp
  · rw [← h0, round28_zero]
  · exact le_of_lt (round28_pos x hp)

/-- Adding a positive amount through rounded decimal addition does not
decrease a value already in rounded form. -/
theorem le_decAdd_of_pos {g r : ℚ} (hfix : round28 g = g) (hg : 0 ≤ g)
    (hr : 0 < r) : g ≤ decAdd g r := by
  calc g = round28 g := hfix.symm
    _ ≤ round28 (g + r) := round28_mono_nonneg hg (by linarith)
    _ = decAdd g r := rfl

theorem decAdd_mono_nonneg {a b c d : ℚ} (ha : 0 ≤ a) (hab : a ≤ b)
    (hcd : c ≤ d) (hc : 0 ≤ c) : decAdd a c ≤ decAdd b d := by
  unfold decAdd
  exact round28_mono_nonneg (by linarith) (by linarith)

/-- Reduction of an `Except` bind with a known successful left side. -/
theorem ebind_ok {ε α β : Type} (a : α) (f : α → Except ε β) :
    (do let x ← (Except.ok a : Except ε α); f x) = f a := rfl

/-- Reduction of an `Except` bind with a known failing left side. -/
theorem ebind_err {ε α β : Type} (e : ε) (f : α → Except ε β) :
    (do let x ← (Except.error e : Except ε α); f x) = Except.error e := rfl

/-! Claim theorems. -/

/-- C8: for every currency A and every date argument, get_rate returns
exactly 1 when both currencies are A, for every lookback bound and every
rate table (so no table lookup can influence the result), regardless of the
table contents and even of whether the date parses. -/
theorem c8_same_currency_one :
    (∀ (table : RateTable) (a date_str : String),
      get_rate table a a date_str = .ok 1) ∧
    ∀ (maxBack : Nat) (table : RateTable) (a date_str : String),
      get_rate_with maxBack table a a date_str = .ok 1 := by
  constructor
  · intro table a date_str
    unfold get_rate get_rate_with
    rw [if_pos rfl]
  · intro maxBack table a date_str
    unfold get_rate_with
    rw [if_pos rfl]

/-- C9: the in-process cache holds at most `MAXCACHE = 10` entries
(`cache_set` preserves the bound); inserting a new key into a full cache
evicts the oldest-inserted entry (the head of the insertion-ordered list);
and the cache is populated by both `storage_save` and `storage_load`. -/
theorem c9_cache_bound_eviction_population :
    MAXCACHE = 10 ∧
    (∀ (c : List (String × CurrencyDict)) (k : String) (v : CurrencyDict),
      c.length ≤ MAXCACHE → (cache_set c k v).length ≤ MAXCACHE) ∧
    (∀ (c : List (String × CurrencyDict)) (k : String) (v : CurrencyDict),
      c.length = MAXCACHE → lookupStr c k = none →
      cache_set c k v = c.drop 1 ++ [(k, v)]) ∧
    (∀ (c : List (String × CurrencyDict)) (f : String) (v : CurrencyDict),
      storage_save true c f v = cache_set c f v) ∧
    (∀ (c : List (String × CurrencyDict)) (b : String → CurrencyDict) (f : String),
      cache_get c f = none → b f ≠ [] →
      (storage_load true b c f).cacheAfter = cache_set c f (b f)) := by
  have hset_none : ∀ {α : Type} (l : List (String × α)) (k : String) (v : α),
      lookupStr l k = none → assocSet l k v = l ++ [(k, v)] := by
    intro α l k v h
    induction l with
    | nil => rfl
    | cons hd tl ih =>
      unfold lookupStr at h
      unfold assocSet
      by_cases he : hd.1 = k
      · rw [if_pos he] at h; cases h
      · rw [if_neg he] at h ⊢
        rw [ih h]
        simp
  have hset_some : ∀ {α : Type} (l : List (String × α)) (k : String) (v : α),
      (lookupStr l k).isSome → (assocSet l k v).length = l.length := by
    intro α l k v h
    induction l with
    | nil => simp [lookupStr] at h
    | cons hd tl ih =>
      unfold lookupStr at h
      unfold assocSet
      by_cases he : hd.1 = k
      · rw [if_pos he]; simp
      · rw [if_neg he] at h ⊢
        simp only [List.length_cons]
        rw [ih h]
  have hdrop_none : ∀ {α : Type} (l : List (String × α)) (k : String),
      lookupStr l k = none → lookupStr (l.drop 1) k = none := by
    intro α l k h
    cases l with
    | nil => exact h
    | cons hd tl =>
      unfold lookupStr at h
      by_cases he : hd.1 = k
      · rw [if_pos he] at h; cases h
      · rw [if_neg he] at h
        simpa using h
  refine ⟨rfl, ?_, ?_, ?_, ?_⟩
  · intro c k v hlen
    unfold cache_set
    by_cases hk : (lookupStr c k).isNone
    · by_cases hfull : MAXCACHE ≤ c.length
      · rw [if_pos ⟨hk, hfull⟩]
        rw [hset_none _ _ _ (by simpa [Option.isNone_iff_eq_none] using
          (hdrop_none c k (Option.isNone_iff_eq_none.mp hk)))]
        have hM : MAXCACHE = 10 := rfl
        simp only [List.length_append, List.length_drop, List.length_cons,
          List.length_nil]
        omega
      · rw [if_neg (by intro hcon; exact hfull hcon.2)]
        rw [hset_none _ _ _ (Option.isNone_iff_eq_none.mp hk)]
        have hM : MAXCACHE = 10 := rfl
        simp only [List.length_append, List.length_cons, List.length_nil]
        omega
    · rw [if_neg (by intro hcon; exact hk hcon.1)]
      have : (lookupStr c k).isSome := by
        rcases h : lookupStr c k with _ | w
        · rw [h] at hk; simp at hk
        · simp
      rw [hset_some _ _ _ this]
      exact hlen
  · intro c k v hlen hnone
    unfold cache_set
    rw [if_pos ⟨by simp [hnone], le_of_eq hlen.symm⟩]
    exact hset_none _ _ _ (hdrop_none c k hnone)
  · intro c f v
    unfold storage_save
    rw [if_pos rfl]
  · intro c b f hmiss hne
    unfold storage_load storage_load_backend
    rw [if_pos rfl, hmiss]
    simp only [LoadResult.mk.injEq]
    rw [if_pos ⟨hne, by trivial⟩]

/-- C9 witness: a concrete full 10-entry cache evicts its oldest key, and
save and load populate the cache. -/
theorem c9_witness :
    cache_set
      ([("k0", []), ("k1", []), ("k2", []), ("k3", []), ("k4", []), ("k5", []),
        ("k6", []), ("k7", []), ("k8", []), ("k9", [])] :
        List (String × CurrencyDict)) "new" [("d", [("x", "1")])]
      = [("k1", []), ("k2", []), ("k3", []), ("k4", []), ("k5", []), ("k6", []),
         ("k7", []), ("k8", []), ("k9", []), ("new", [("d", [("x", "1")])])] ∧
    storage_save true [] "f" [("d", [("x", "1")])]
      = cache_set [] "f" [("d", [("x", "1")])] ∧
    (storage_load true (fun _ => [("d", [("x", "1")])]) [] "f").cacheAfter
      = cache_set [] "f" [("d", [("x", "1")])] := by
  refine ⟨?_, ?_, ?_⟩
  · have h := (c9_cache_bound_eviction_population.2.2.1)
      ([("k0", []), ("k1", []), ("k2", []), ("k3", []), ("k4", []), ("k5", []),
        ("k6", []), ("k7", []), ("k8", []), ("k9", [])] :
        List (String × CurrencyDict)) "new" [("d", [("x", "1")])]
      (by decide) (by decide)
    rw [h]
    decide
  · exact c9_cache_bound_eviction_population.2.2.2.1 [] "f" [("d", [("x", "1")])]
  · exact c9_cache_bound_eviction_population.2.2.2.2 []
      (fun _ => [("d", [("x", "1")])]) "f" (by decide) (by decide)

/-- C10: with caching enabled, a non-empty cached table is returned without
invoking the backend; on a miss with an empty backend result the empty table
is returned, never cached, and the next load calls the backend again; a
cached empty table counts as a miss. -/
theorem c10_load_cache_semantics :
    (∀ (c : List (String × CurrencyDict)) (b : String → CurrencyDict)
        (f : String) (v : CurrencyDict),
      cache_get c f = some v → v ≠ [] →
      storage_load true b c f = ⟨v, false, c⟩) ∧
    (∀ (c : List (String × CurrencyDict)) (b : String → CurrencyDict) (f : String),
      cache_get c f = none → b f = [] →
      storage_load true b c f = ⟨[], true, c⟩ ∧
      storage_load true b (storage_load true b c f).cacheAfter f = ⟨[], true, c⟩) ∧
    (∀ (c : List (String × CurrencyDict)) (b : String → CurrencyDict) (f : String),
      cache_get c f = some [] → (storage_load true b c f).backendCalled = true) := by
  refine ⟨?_, ?_, ?_⟩
  · intro c b f v hv hne
    unfold storage_load
    rw [if_pos rfl, hv]
    simp only []
    rw [if_pos hne]
  · intro c b f hmiss hempty
    have h1 : storage_load true b c f = ⟨[], true, c⟩ := by
      unfold storage_load storage_load_backend
      rw [if_pos rfl, hmiss, hempty]
      rw [if_neg (by intro hcon; exact hcon.1 rfl)]
    refine ⟨h1, ?_⟩
    rw [h1]
    exact h1
  · intro c b f hv
    unfold storage_load
    rw [if_pos rfl, hv]
    simp only [ne_eq, not_true_eq_false, if_false]
    unfold storage_load_backend
    rfl

/-- C10 witness: concrete caches exercising the three clauses. -/
theorem c10_witness :
    storage_load true (fun _ => []) [("f", [("d", [])])] "f"
      = ⟨[("d", [])], false, [("f", [("d", [])])]⟩ ∧
    storage_load true (fun _ => []) [] "f" = ⟨[], true, []⟩ ∧
    (storage_load true (fun _ => []) [("f", [])] "f").backendCalled = true := by
  refine ⟨?_, ?_, ?_⟩
  · exact c10_load_cache_semantics.1 [("f", [("d", [])])] (fun _ => []) "f"
      [("d", [])] (by decide) (by decide)
  · exact (c10_load_cache_semantics.2.1 [] (fun _ => []) "f" (by decide) rfl).1
  · exact c10_load_cache_semantics.2.2 [("f", [])] (fun _ => []) "f" (by decide)

theorem dateBack_succ_shift (k : Nat) (d : PDate) :
    dateBack k (prevDay d) = dateBack (k + 1) d := by
  unfold dateBack
  exact (Function.iterate_succ_apply prevDay k d).symm

theorem rateGo_all_missing (table : RateTable) (cf ct : String) (orig : PDate) :
    ∀ (n : Nat) (cur : PDate),
      (∀ k, k < n → resolveRates table cf ct (dateBack k cur) = .ok none) →
      rateGo table cf ct orig n cur = .error (.rateNotFound cf ct orig (dateBack n cur)) := by
  intro n
  induction n with
  | zero =>
    intro cur _
    rfl
  | succ m ih =>
    intro cur hall
    have h0 : resolveRates table cf ct cur = .ok none := by
      have := hall 0 (Nat.succ_pos m)
      simpa [dateBack] using this
    have hrest : ∀ k, k < m → resolveRates table cf ct (dateBack k (prevDay cur)) = .ok none := by
      intro k hk
      rw [dateBack_succ_shift]
      exact hall (k + 1) (by omega)
    show rateGo table cf ct orig (m + 1) cur = _
    rw [show rateGo table cf ct orig (m + 1) cur
        = (resolveRates table cf ct cur).bind
            (fun r => match r with
              | some v => .ok v
              | none => rateGo table cf ct orig m (prevDay cur)) from rfl]
    rw [h0]
    show rateGo table cf ct orig m (prevDay cur) = _
    rw [ih (prevDay cur) hrest, dateBack_succ_shift]

theorem rateGo_first_hit (table : RateTable) (cf ct : String) (orig : PDate) :
    ∀ (n k0 : Nat) (cur : PDate) (r : ℚ),
      k0 < n →
      (∀ j, j < k0 → resolveRates table cf ct (dateBack j cur) = .ok none) →
      resolveRates table cf ct (dateBack k0 cur) = .ok (some r) →
      rateGo table cf ct orig n cur = .ok r := by
  intro n
  induction n with
  | zero => intro k0 cur r h; omega
  | succ m ih =>
    intro k0 cur r hk0 hmiss hhit
    rw [show rateGo table cf ct orig (m + 1) cur
        = (resolveRates table cf ct cur).bind
            (fun x => match x with
              | some v => .ok v
              | none => rateGo table cf ct orig m (prevDay cur)) from rfl]
    cases k0 with
    | zero =>
      have h0 : resolveRates table cf ct cur = .ok (some r) := by
        simpa [dateBack] using hhit
      rw [h0]
      rfl
    | succ k1 =>
      have h0 : resolveRates table cf ct cur = .ok none := by
        have := hmiss 0 (Nat.succ_pos k1)
        simpa [dateBack] using this
      rw [h0]
      show rateGo table cf ct orig m (prevDay cur) = .ok r
      apply ih k1 (prevDay cur) r (by omega)
      · intro j hj
        rw [dateBack_succ_shift]
        exact hmiss (j + 1) (by omega)
      · rw [dateBack_succ_shift]
        exact hhit

/-- C4: get_rate parses the date, then examines the table at the original
date first and one day earlier at each retry, for `MAX_BACKTRACK_DAYS = 7`
dates by default; when no examined date resolves both currencies it raises
the rate-not-found error carrying both currencies, the original date and
the date where the search stopped; with the lookback reduced to 0 a lookup
whose currency is missing on the requested day itself fails immediately,
with the search stopping at the original date. -/
theorem c4_bounded_backward_search :
    MAX_BACKTRACK_DAYS = 7 ∧
    ∀ (table : RateTable) (cf ct ds : String) (d : PDate),
      cf ≠ ct → get_date ds = .ok d →
      ((∀ k, k < MAX_BACKTRACK_DAYS → resolveRates table cf ct (dateBack k d) = .ok none) →
        get_rate table cf ct ds
          = .error (.rateNotFound cf ct d (dateBack MAX_BACKTRACK_DAYS d))) ∧
      (∀ k0 r, k0 < MAX_BACKTRACK_DAYS →
        (∀ j, j < k0 → resolveRates table cf ct (dateBack j d) = .ok none) →
        resolveRates table cf ct (dateBack k0 d) = .ok (some r) →
        get_rate table cf ct ds = .ok r) ∧
      (resolveRates table cf ct d = .ok none →
        get_rate_with 0 table cf ct ds = .error (.rateNotFound cf ct d d)) := by
  refine ⟨rfl, ?_⟩
  intro table cf ct ds d hne hdate
  have hopen : ∀ maxBack, get_rate_with maxBack table cf ct ds
      = rateGo table cf ct d maxBack d := by
    intro maxBack
    unfold get_rate_with
    rw [if_neg hne, hdate]
    rfl
  refine ⟨?_, ?_, ?_⟩
  · intro hall
    unfold get_rate
    rw [hopen]
    exact rateGo_all_missing table cf ct d MAX_BACKTRACK_DAYS d hall
  · intro k0 r hk0 hmiss hhit
    unfold get_rate
    rw [hopen]
    exact rateGo_first_hit table cf ct d MAX_BACKTRACK_DAYS k0 d r hk0 hmiss hhit
  · intro _
    rw [hopen]
    rfl

set_option maxRecDepth 100000 in
/-- C4 witness: on an empty table a USD to EUR lookup fails after seven
days with the stop date reported, a rate present on the requested day is
found at once, and a zero lookback fails immediately. -/
theorem c4_witness :
    get_rate [] "USD" "EUR" "2021-01-04"
      = .error (.rateNotFound "USD" "EUR" ⟨2021, 1, 4⟩
          (dateBack MAX_BACKTRACK_DAYS ⟨2021, 1, 4⟩)) ∧
    get_rate [("2021-01-04", [("USD", "2")])] "USD" "EUR" "2021-01-04"
      = .ok (round28 (1 / 2)) ∧
    get_rate_with 0 [] "USD" "EUR" "2021-01-04"
      = .error (.rateNotFound "USD" "EUR" ⟨2021, 1, 4⟩ ⟨2021, 1, 4⟩) := by
  obtain ⟨-, hmain⟩ := c4_bounded_backward_search
  obtain ⟨herr, hhit, hzero⟩ := hmain [] "USD" "EUR" "2021-01-04" ⟨2021, 1, 4⟩
    (by decide) (by with_unfolding_all decide)
  obtain ⟨-, hhit2, -⟩ := hmain [("2021-01-04", [("USD", "2")])] "USD" "EUR"
    "2021-01-04" ⟨2021, 1, 4⟩ (by decide) (by with_unfolding_all decide)
  refine ⟨?_, ?_, ?_⟩
  · exact herr (by with_unfolding_all decide)
  · exact hhit2 0 (round28 (1 / 2)) (by decide) (by omega)
      (by with_unfolding_all decide)
  · exact hzero (by with_unfolding_all decide)

set_option maxRecDepth 100000 in
/-- C3 counterexample: a row that matches neither canonical header shape
(the single-account shape with "Exchange" and "Code" swapped) nevertheless
derives a field layout before any canonical header row has been seen,
contradicting the claim that no layout exists until a canonical header row
appears. -/
theorem c3_counterexample :
    permutedHeaderRow ≠ singleAccountHeader ∧
    permutedHeaderRow ≠ multiAccountHeader ∧
    add_trades optsBon [] [permutedHeaderRow] initState
      = .ok { initState with fields := buildFields permutedHeaderRow, trade := none } ∧
    buildFields permutedHeaderRow ≠ [] := by
  with_unfolding_all decide

/-- C3 amended: any row containing every logical field name (in particular
each of the two canonical header shapes) re-derives the field layout, with
every logical field mapped to its column index, and clears the open trade;
initially no layout exists, and while no layout exists every row that does
not contain all field names is ignored. -/
theorem c3_amended_header_layout :
    initState.fields = [] ∧
    (∀ (o : ReportOptionsB) (table : RateTable) (s : RState),
      handle_one_line o table s singleAccountHeader
        = .ok { s with fields := buildFields singleAccountHeader, trade := none } ∧
      handle_one_line o table s multiAccountHeader
        = .ok { s with fields := buildFields multiAccountHeader, trade := none }) ∧
    ((List.range 15).all (fun i =>
      lookupStr (buildFields singleAccountHeader) (singleAccountHeader.getD i "")
        == some i) = true) ∧
    ((List.range 16).all (fun i =>
      lookupStr (buildFields multiAccountHeader) (multiAccountHeader.getD i "")
        == some i) = true) ∧
    (∀ (o : ReportOptionsB) (table : RateTable) (s : RState) (items : List String),
      s.fields = [] → headerPred items = false →
      handle_one_line o table s items = .ok s) := by
  refine ⟨rfl, ?_, by with_unfolding_all decide, by with_unfolding_all decide, ?_⟩
  · intro o table s
    constructor
    · unfold handle_one_line
      rw [if_pos (by with_unfolding_all decide : headerPred singleAccountHeader = true)]
    · unfold handle_one_line
      rw [if_pos (by with_unfolding_all decide : headerPred multiAccountHeader = true)]
  · intro o table s items hfields hhp
    unfold handle_one_line
    rw [if_neg (by simp [hhp])]
    rw [if_neg (by simp [hfields])]

/-- C3 witness: the amended statement applied to the initial state and to a
row that is not a header. -/
theorem c3_witness :
    handle_one_line optsBon [] initState singleAccountHeader
      = .ok { initState with fields := buildFields singleAccountHeader, trade := none } ∧
    handle_one_line optsBon [] initState ["x"] = .ok initState :=
  ⟨(c3_amended_header_layout.2.1 optsBon [] initState).1,
    c3_amended_header_layout.2.2.2.2 optsBon [] initState ["x"] rfl
      (by with_unfolding_all decide)⟩

/-- C5: once a layout exists, an eligible ClosedLot row arriving while no
trade is open makes the whole ingestion fail with the
closed-lot-without-trade error, whatever rows were still to come (so no
partial totals are produced). -/
theorem c5_closed_lot_without_trade :
    ∀ (o : ReportOptionsB) (table : RateTable) (s : RState) (items : List String)
      (rest : List (List String)),
      headerPred items = false →
      s.trade = none →
      is_stock_or_options_trade s.fields items = .ok true →
      readField s.fields items "DataDiscriminator" = .ok "ClosedLot" →
      add_trades o table (items :: rest) s = .error .closedLotWithoutTrade := by
  intro o table s items rest hhp htr hstock hdd
  have hfields : s.fields ≠ [] := by
    intro hnil
    rw [hnil] at hstock
    unfold is_stock_or_options_trade at hstock
    split at hstock
    · unfold readField lookupStr at hstock
      exact Except.noConfusion hstock
    · simp at hstock
  have hhl : handle_one_line o table s items = .error .closedLotWithoutTrade := by
    unfold handle_one_line
    rw [if_neg (by simp [hhp]), if_pos hfields, hstock, ebind_ok, if_pos rfl]
    unfold handle_trade
    rw [hdd, ebind_ok, if_neg (by decide), ebind_ok, if_pos rfl, htr]
  show (handle_one_line o table s items).bind
    (fun s2 => add_trades o table rest s2) = _
  rw [hhl]
  rfl

set_option maxRecDepth 400000 in
/-- C5 witness: a stream whose first data row after the header is a
ClosedLot row aborts with the closed-lot-without-trade error. -/
theorem c5_witness :
    add_trades optsBon [] [singleAccountHeader, lotRowBuy] initState
      = .error .closedLotWithoutTrade := by
  have hstep : handle_one_line optsBon [] initState singleAccountHeader
      = .ok headerState := by
    with_unfolding_all decide
  have h0 : add_trades optsBon [] [singleAccountHeader, lotRowBuy] initState
      = add_trades optsBon [] [lotRowBuy] headerState := by
    show (handle_one_line optsBon [] initState singleAccountHeader).bind
      (fun s2 => add_trades optsBon [] [lotRowBuy] s2) = _
    rw [hstep]
    rfl
  rw [h0]
  exact c5_closed_lot_without_trade optsBon [] headerState lotRowBuy []
    (by with_unfolding_all decide) rfl (by with_unfolding_all decide)
    (by with_unfolding_all decide)


set_option maxRecDepth 400000 in
/-- C1 counterexample: the lot check is not cumulative.  Against a trade that
opened +10, two ClosedLot rows of -6 each are both accepted (each alone
satisfies the per-lot check), the run succeeds with an accumulated closed
quantity of -12, and no QuantityMismatch is ever raised although the lots
together close 12 > 10 shares. -/
theorem c1_counterexample :
    c1TwoLots = .ok (-12) ∧ ¬(|(-12 : ℚ)| ≤ |(10 : ℚ)|) :=
  ⟨by with_unfolding_all decide, by norm_num⟩

/-- C1 amended: lot validation is per row against the trade's original open
quantity only.  A symbol-matching ClosedLot row whose own quantity satisfies
|open.quantity + lot.quantity| > |open.quantity| is rejected with
QuantityMismatch; previously accumulated closed lots play no part in the
check. -/
theorem c1_amended_per_lot_validation (o : ReportOptionsA) (table : RateTable)
    (t : Trade) (items : List String) (lot : RowData)
    (hlot : row_dataA o table items = .ok lot)
    (hsym : t.data.symbol = lot.symbol)
    (hq : |decAdd t.data.quantity lot.quantity| > |t.data.quantity|) :
    details_from_closed_lotA o table t items =
      .error (.quantityMismatch lot.date_str lot.symbol) := by
  unfold details_from_closed_lotA
  rw [hlot, ebind_ok, if_neg (by simp [hsym]), if_pos hq]

set_option maxRecDepth 400000 in
/-- C1 witness: a single ClosedLot row of -25 against a trade that opened +10
violates the per-lot bound and is rejected. -/
theorem c1_witness :
    details_from_closed_lotA optsA0 []
        ⟨⟨"FOO", "2021-01-02, 10:00:00", 1, 10, 10⟩, 0, 0, 0⟩ lotRowClose25 =
      .error (.quantityMismatch "2020-01-02, 10:00:00" "FOO") :=
  c1_amended_per_lot_validation optsA0 [] _ lotRowClose25
    ⟨"FOO", "2020-01-02, 10:00:00", 1, 2, -25⟩
    (by with_unfolding_all decide) rfl (by with_unfolding_all decide)


set_option maxRecDepth 400000 in
/-- C2 counterexample: the code clamps realized to `multiplier * sell_price`,
not to `sell_price - multiplier * sell_price` as the specification words it.
Selling 10 shares at 10 that were bought a year earlier at 2 realizes 80;
the specification formula would cap it at 100 - 0.8 * 100 = 20, but the code
keeps 80. -/
theorem c2_counterexample :
    c2Realized = .ok 80 ∧ specDeemedRealized 80 100 false = 20 ∧
      ((80 : ℚ)) ≠ 20 :=
  ⟨by with_unfolding_all decide, by norm_num [specDeemedRealized],
    by norm_num⟩

/-- C2 amended: with deemed acquisition cost enabled, a long ClosedLot that
passes validation realizes
`min (lot_sell_price - lot_buy_price - lot_fee) (multiplier * lot_sell_price)`
with multiplier 0.6 (as `Decimal(0.6)`) exactly when the buy date is at least
ten calendar years before the sell date (February 29 falling back to
February 28), else 0.8 (as `Decimal(0.8)`): the deemed profit itself is the
cap, the sell price minus it is not formed. -/
theorem c2_amended_deemed_clamp (o : ReportOptionsA) (table : RateTable)
    (t : Trade) (items : List String) (lot : RowData) (cat : String)
    (lfee : ℚ) (b s : PDate)
    (ho : o.deemed_acquisition_cost = true)
    (hlot : row_dataA o table items = .ok lot)
    (hsym : t.data.symbol = lot.symbol)
    (hq : ¬ |decAdd t.data.quantity lot.quantity| > |t.data.quantity|)
    (hpos : ¬ lot.quantity < 0)
    (hcat : readIdx items F_ASSET_CATEGORY = .ok cat)
    (hfee : decDivE (decMul lot.quantity t.fee) t.data.quantity = .ok lfee)
    (hb : get_date (date_without_time lot.date_str) = .ok b)
    (hs : get_date (date_without_time t.data.date_str) = .ok s) :
    details_from_closed_lotA o table t items = .ok
      (⟨lot.symbol, |lot.quantity|, date_without_time lot.date_str,
        date_without_time t.data.date_str,
        decMul (decMul |lot.quantity| t.data.price_per_share)
          (if cat = "Equity and Index Options" then 100 else 1),
        min
          (decSub
            (decSub
              (decMul (decMul |lot.quantity| t.data.price_per_share)
                (if cat = "Equity and Index Options" then 100 else 1))
              (decMul (decMul |lot.quantity| lot.price_per_share)
                (if cat = "Equity and Index Options" then 100 else 1)))
            lfee)
          (decMul (if pdateLE b (add_years s (-10)) then dec06 else dec08)
            (decMul (decMul |lot.quantity| t.data.price_per_share)
              (if cat = "Equity and Index Options" then 100 else 1)))⟩,
       { t with closed_quantity := decAdd t.closed_quantity lot.quantity }) := by
  unfold details_from_closed_lotA deemed_profit
  rw [hlot]
  simp only [ebind_ok]
  rw [if_neg (by simp [hsym]), if_neg hq]
  simp only [if_neg hpos, hcat, hfee, hb, hs, ho, ebind_ok, if_true, hsym]

set_option maxRecDepth 400000 in
/-- C2 witness: selling 10 FOO at 10 against a lot bought at 2 one year
earlier: realized is min(80, Decimal(0.8) * 100) = 80. -/
theorem c2_witness :
    details_from_closed_lotA optsA0 []
        ⟨⟨"FOO", "2021-01-02, 10:00:00", 1, 10, -10⟩, 0, 0, 100⟩ lotRowBuy =
      .ok (⟨"FOO", 10, "2020-01-02", "2021-01-02", 100, 80⟩,
           ⟨⟨"FOO", "2021-01-02, 10:00:00", 1, 10, -10⟩, 0, 10, 100⟩) := by
  have h := c2_amended_deemed_clamp optsA0 []
      ⟨⟨"FOO", "2021-01-02, 10:00:00", 1, 10, -10⟩, 0, 0, 100⟩ lotRowBuy
      ⟨"FOO", "2020-01-02, 10:00:00", 1, 2, 10⟩ "Stocks" 0 ⟨2020, 1, 2⟩
      ⟨2021, 1, 2⟩ rfl (by with_unfolding_all decide) rfl
      (by with_unfolding_all decide) (by with_unfolding_all decide)
      (by with_unfolding_all decide) (by with_unfolding_all decide)
      (by with_unfolding_all decide) (by with_unfolding_all decide)
  rw [h]
  with_unfolding_all decide


set_option maxRecDepth 400000 in
/-- C7 counterexample: both directions of an AAA rate of 3 resolve on the
same date, but the product of the returned rates is not 1: the AAA to EUR
rate is already rounded to 28 significant digits, and
3 * 0.3333333333333333333333333333 falls short of 1 both under Decimal
multiplication and exactly. -/
theorem c7_counterexample :
    get_rate c7Table "EUR" "AAA" "2021-01-04" = .ok 3 ∧
    get_rate c7Table "AAA" "EUR" "2021-01-04" = .ok (round28 (1 / 3)) ∧
    decMul 3 (round28 (1 / 3)) ≠ 1 ∧ ((3 : ℚ)) * round28 (1 / 3) ≠ 1 :=
  ⟨by with_unfolding_all decide, by with_unfolding_all decide,
   by with_unfolding_all decide, by with_unfolding_all decide⟩

/-- C7 amended: the inverse law holds before rounding.  When a currency's
EUR rate parses to q on the requested date, the two pivot lookups return
exactly the 28-digit roundings of q and of 1/q, whose unrounded values are
exact mutual inverses; the product of the returned (rounded) rates itself
may differ from 1. -/
theorem c7_amended_pivot_rounded_inverse (table : RateTable) (ct ds : String)
    (d : PDate) (dr : List (String × String)) (v : String) (q : ℚ)
    (hct : ct ≠ "EUR") (hq : q ≠ 0)
    (hds : get_date ds = .ok d)
    (hdr : lookupStr table (formatDate d) = some dr)
    (hv : lookupStr dr ct = some v)
    (hpv : parseDec v = .ok q) :
    get_rate table "EUR" ct ds = .ok (round28 q) ∧
    get_rate table ct "EUR" ds = .ok (round28 (1 / q)) ∧
    q * (1 / q) = 1 := by
  have hres1 : resolveRates table "EUR" ct d = .ok (some (round28 q)) := by
    unfold resolveRates
    rw [hdr]
    simp only [Option.getD_some, eq_self_iff_true, if_true, if_neg hct, hv,
      Option.map_some', hpv]
    show (do
        let t ← (Except.ok q : Except RErr ℚ)
        let f ← (Except.ok 1 : Except RErr ℚ)
        let r ← decDivE t f
        (Except.ok (some r) : Except RErr (Option ℚ)))
      = Except.ok (some (round28 q))
    rw [ebind_ok, ebind_ok]
    unfold decDivE
    rw [if_neg one_ne_zero, ebind_ok, div_one]
  have hres2 : resolveRates table ct "EUR" d = .ok (some (round28 (1 / q))) := by
    unfold resolveRates
    rw [hdr]
    simp only [Option.getD_some, eq_self_iff_true, if_true, if_neg hct, hv,
      Option.map_some', hpv]
    show (do
        let t ← (Except.ok 1 : Except RErr ℚ)
        let f ← (Except.ok q : Except RErr ℚ)
        let r ← decDivE t f
        (Except.ok (some r) : Except RErr (Option ℚ)))
      = Except.ok (some (round28 (1 / q)))
    rw [ebind_ok, ebind_ok]
    unfold decDivE
    rw [if_neg hq, ebind_ok]
  have hne1 : ("EUR" : String) ≠ ct := fun h => hct h.symm
  refine ⟨?_, ?_, mul_one_div_cancel hq⟩
  · unfold get_rate
    have hopen : get_rate_with MAX_BACKTRACK_DAYS table "EUR" ct ds
        = rateGo table "EUR" ct d MAX_BACKTRACK_DAYS d := by
      unfold get_rate_with
      rw [if_neg hne1, hds]
      rfl
    rw [hopen]
    exact rateGo_first_hit table "EUR" ct d MAX_BACKTRACK_DAYS 0 d (round28 q)
      (by norm_num [MAX_BACKTRACK_DAYS]) (by omega)
      (by simpa [dateBack] using hres1)
  · unfold get_rate
    have hopen : get_rate_with MAX_BACKTRACK_DAYS table ct "EUR" ds
        = rateGo table ct "EUR" d MAX_BACKTRACK_DAYS d := by
      unfold get_rate_with
      rw [if_neg hct, hds]
      rfl
    rw [hopen]
    exact rateGo_first_hit table ct "EUR" d MAX_BACKTRACK_DAYS 0 d
      (round28 (1 / q)) (by norm_num [MAX_BACKTRACK_DAYS]) (by omega)
      (by simpa [dateBack] using hres2)

set_option maxRecDepth 100000 in
/-- C7 witness: a BBB rate of 2 yields the rounded rates round28 2 and
round28 (1/2), and 2 * (1/2) = 1 exactly. -/
theorem c7_witness :
    get_rate [("2021-01-04", [("BBB", "2")])] "EUR" "BBB" "2021-01-04"
      = .ok (round28 2) ∧
    get_rate [("2021-01-04", [("BBB", "2")])] "BBB" "EUR" "2021-01-04"
      = .ok (round28 (1 / 2)) ∧
    ((2 : ℚ)) * (1 / 2) = 1 :=
  c7_amended_pivot_rounded_inverse [("2021-01-04", [("BBB", "2")])] "BBB"
    "2021-01-04" ⟨2021, 1, 4⟩ [("BBB", "2")] "2" 2 (by decide) (by norm_num)
    (by with_unfolding_all decide) (by with_unfolding_all decide)
    (by with_unfolding_all decide) (by with_unfolding_all decide)


/-- Inversion of a successful `Except` bind. -/
theorem ebind_ok_inv {ε α β : Type} {x : Except ε α} {f : α → Except ε β}
    {b : β} (h : (do let a ← x; f a) = .ok b) :
    ∃ a, x = .ok a ∧ f a = .ok b := by
  cases x with
  | error e => rw [ebind_err] at h; exact Except.noConfusion h
  | ok a => exact ⟨a, rfl, by rwa [ebind_ok] at h⟩

/-- The row extraction does not look at the deemed-acquisition-cost flag. -/
theorem row_dataB_deemed_irrel (cur : String) (table : RateTable)
    (fields : List (String × Nat)) (items : List String) :
    row_dataB ⟨cur, true⟩ table fields items
      = row_dataB ⟨cur, false⟩ table fields items := rfl

/-- Opening a trade does not look at the deemed-acquisition-cost flag. -/
theorem trade_initB_deemed_irrel (cur : String) (table : RateTable)
    (fields : List (String × Nat)) (items : List String) :
    trade_initB ⟨cur, true⟩ table fields items
      = trade_initB ⟨cur, false⟩ table fields items := rfl

/-- One ClosedLot processed under both settings: the deemed-cost run
realizes at most what the plain run realizes, and both update the open
trade identically. -/
theorem details_from_closed_lotB_pair (cur : String) (table : RateTable)
    (fields : List (String × Nat)) (t : Trade) (items : List String)
    (p1 p2 : TradeDetails × Trade)
    (h1 : details_from_closed_lotB ⟨cur, true⟩ table fields t items = .ok p1)
    (h2 : details_from_closed_lotB ⟨cur, false⟩ table fields t items = .ok p2) :
    p1.1.realized ≤ p2.1.realized ∧ p1.2 = p2.2 := by
  unfold details_from_closed_lotB at h1 h2
  rw [row_dataB_deemed_irrel] at h1
  obtain ⟨lot, hlot, h1⟩ := ebind_ok_inv h1
  obtain ⟨lot2, hlot2, h2⟩ := ebind_ok_inv h2
  rw [hlot] at hlot2
  injection hlot2 with hl
  subst hl
  simp only [] at h1 h2
  by_cases hsym : t.data.symbol ≠ lot.symbol
  · rw [if_pos hsym] at h2
    exact Except.noConfusion h2
  rw [if_neg hsym] at h1 h2
  by_cases hq : |decAdd t.data.quantity lot.quantity| > |t.data.quantity|
  · rw [if_pos hq] at h2
    exact Except.noConfusion h2
  rw [if_neg hq] at h1 h2
  obtain ⟨cat, hcat, h1⟩ := ebind_ok_inv h1
  obtain ⟨cat2, hcat2, h2⟩ := ebind_ok_inv h2
  rw [hcat] at hcat2
  injection hcat2 with hc
  subst hc
  obtain ⟨lot_fee, hfee, h1⟩ := ebind_ok_inv h1
  obtain ⟨lot_fee2, hfee2, h2⟩ := ebind_ok_inv h2
  rw [hfee] at hfee2
  injection hfee2 with hf
  subst hf
  rw [if_pos trivial] at h1
  rw [if_neg Bool.false_ne_true] at h2
  rw [ebind_ok] at h2
  obtain ⟨dp, hdp, h1⟩ := ebind_ok_inv h1
  rw [ebind_ok] at h1
  have h1 := Except.ok.inj h1
  have h2 := Except.ok.inj h2
  subst h1
  subst h2
  exact ⟨inf_le_left, rfl⟩


/-- One row through `handle_trade` under both settings preserves the gains
comparison. -/
theorem handle_trade_pair (cur : String) (table : RateTable)
    (s1 s2 : RState) (items : List String) (s1' s2' : RState)
    (hinv : GainsInv s1 s2)
    (h1 : handle_trade ⟨cur, true⟩ table s1 items = .ok s1')
    (h2 : handle_trade ⟨cur, false⟩ table s2 items = .ok s2') :
    GainsInv s1' s2' := by
  obtain ⟨hf, ht, hp, hg, hfix1, hfix2, hn1, hn2⟩ := hinv
  unfold handle_trade at h1 h2
  rw [hf] at h1
  obtain ⟨dd, hdd, h1⟩ := ebind_ok_inv h1
  obtain ⟨dd2, hdd2, h2⟩ := ebind_ok_inv h2
  rw [hdd] at hdd2
  have hde := Except.ok.inj hdd2
  subst hde
  by_cases hT : dd = "Trade"
  · subst hT
    rw [if_pos rfl] at h1 h2
    rw [trade_initB_deemed_irrel] at h1
    obtain ⟨t1, ht1, h1⟩ := ebind_ok_inv h1
    obtain ⟨t2, ht2, h2⟩ := ebind_ok_inv h2
    rw [ht1] at ht2
    have hte := Except.ok.inj ht2
    subst hte
    simp only [] at h1 h2
    rw [ebind_ok] at h1 h2
    rw [if_neg (by decide : ¬ ("Trade" : String) = "ClosedLot")] at h1 h2
    have h1 := Except.ok.inj h1
    have h2 := Except.ok.inj h2
    subst h1
    subst h2
    exact ⟨rfl, rfl, by rw [hp], hg, hfix1, hfix2, hn1, hn2⟩
  · rw [if_neg hT] at h1 h2
    rw [ebind_ok] at h1 h2
    rw [hf, ht] at h1
    by_cases hC : dd = "ClosedLot"
    · subst hC
      rw [if_pos rfl] at h1 h2
      cases hso : s2.trade with
      | none =>
        rw [hso] at h1
        exact Except.noConfusion h1
      | some t =>
        rw [hso] at h1 h2
        obtain ⟨p1, hp1, h1⟩ := ebind_ok_inv h1
        obtain ⟨p2, hp2, h2⟩ := ebind_ok_inv h2
        obtain ⟨hle, hteq⟩ := details_from_closed_lotB_pair cur table s2.fields
          t items p1 p2 hp1 hp2
        obtain ⟨d1, t1'⟩ := p1
        obtain ⟨d2, t2'⟩ := p2
        simp only [] at h1 h2 hteq
        subst hteq
        by_cases hg1 : d1.realized > 0
        · have hg2 : d2.realized > 0 := lt_of_lt_of_le hg1 hle
          rw [if_pos hg1] at h1
          rw [if_pos hg2] at h2
          have h1 := Except.ok.inj h1
          have h2 := Except.ok.inj h2
          subst h1
          subst h2
          refine ⟨rfl, rfl, hp, ?_, ?_, ?_, ?_, ?_⟩
          · exact decAdd_mono_nonneg hn1 hg hle (le_of_lt hg1)
          · exact round28_fix_nonneg (by linarith)
          · exact round28_fix_nonneg (by linarith)
          · exact round28_nonneg (by linarith)
          · exact round28_nonneg (by linarith)
        · by_cases hg2 : d2.realized > 0
          · rw [if_neg hg1] at h1
            rw [if_pos hg2] at h2
            have h1 := Except.ok.inj h1
            have h2 := Except.ok.inj h2
            subst h1
            subst h2
            refine ⟨rfl, rfl, hp, ?_, hfix1, ?_, hn1, ?_⟩
            · exact le_trans hg (le_decAdd_of_pos hfix2 hn2 hg2)
            · exact round28_fix_nonneg (by linarith)
            · exact round28_nonneg (by linarith)
          · rw [if_neg hg1] at h1
            rw [if_neg hg2] at h2
            have h1 := Except.ok.inj h1
            have h2 := Except.ok.inj h2
            subst h1
            subst h2
            exact ⟨rfl, rfl, hp, hg, hfix1, hfix2, hn1, hn2⟩
    · rw [if_neg hC] at h1 h2
      have h1 := Except.ok.inj h1
      have h2 := Except.ok.inj h2
      subst h1
      subst h2
      exact ⟨hf, ht, hp, hg, hfix1, hfix2, hn1, hn2⟩

/-- One row through `handle_one_line` under both settings preserves the
gains comparison. -/
theorem handle_one_line_pair (cur : String) (table : RateTable)
    (s1 s2 : RState) (items : List String) (s1' s2' : RState)
    (hinv : GainsInv s1 s2)
    (h1 : handle_one_line ⟨cur, true⟩ table s1 items = .ok s1')
    (h2 : handle_one_line ⟨cur, false⟩ table s2 items = .ok s2') :
    GainsInv s1' s2' := by
  obtain ⟨hf, ht, hp, hg, hfix1, hfix2, hn1, hn2⟩ := hinv
  unfold handle_one_line at h1 h2
  by_cases hh : headerPred items = true
  · rw [if_pos hh] at h1 h2
    have h1 := Except.ok.inj h1
    have h2 := Except.ok.inj h2
    subst h1
    subst h2
    exact ⟨rfl, rfl, hp, hg, hfix1, hfix2, hn1, hn2⟩
  · rw [if_neg hh] at h1 h2
    rw [hf] at h1
    by_cases hfe : s2.fields ≠ []
    · rw [if_pos hfe] at h1 h2
      obtain ⟨b, hb, h1⟩ := ebind_ok_inv h1
      obtain ⟨b2, hb2, h2⟩ := ebind_ok_inv h2
      rw [hb] at hb2
      have hbe := Except.ok.inj hb2
      subst hbe
      by_cases hbt : b = true
      · subst hbt
        rw [if_pos rfl] at h1 h2
        exact handle_trade_pair cur table s1 s2 items s1' s2'
          ⟨hf, ht, hp, hg, hfix1, hfix2, hn1, hn2⟩ h1 h2
      · rw [if_neg hbt] at h1 h2
        have h1 := Except.ok.inj h1
        have h2 := Except.ok.inj h2
        subst h1
        subst h2
        exact ⟨hf, ht, hp, hg, hfix1, hfix2, hn1, hn2⟩
    · rw [if_neg hfe] at h1 h2
      have h1 := Except.ok.inj h1
      have h2 := Except.ok.inj h2
      subst h1
      subst h2
      exact ⟨hf, ht, hp, hg, hfix1, hfix2, hn1, hn2⟩

/-- The whole row stream under both settings preserves the gains
comparison. -/
theorem add_trades_pair (cur : String) (table : RateTable) :
    ∀ (rows : List (List String)) (s1 s2 r1 r2 : RState),
      GainsInv s1 s2 →
      add_trades ⟨cur, true⟩ table rows s1 = .ok r1 →
      add_trades ⟨cur, false⟩ table rows s2 = .ok r2 →
      GainsInv r1 r2 := by
  intro rows
  induction rows with
  | nil =>
    intro s1 s2 r1 r2 hinv h1 h2
    have h1 := Except.ok.inj h1
    have h2 := Except.ok.inj h2
    subst h1
    subst h2
    exact hinv
  | cons r rs ih =>
    intro s1 s2 r1 r2 hinv h1 h2
    obtain ⟨s1', hs1, h1⟩ := ebind_ok_inv h1
    obtain ⟨s2', hs2, h2⟩ := ebind_ok_inv h2
    exact ih s1' s2' r1 r2
      (handle_one_line_pair cur table s1 s2 r s1' s2' hinv hs1 hs2) h1 h2


/-- C6: for a fixed row stream and exchange-rate table, when the report runs
to completion under both settings, enabling the deemed-acquisition-cost
option never increases the total realized gains. -/
theorem c6_deemed_cost_monotone (table : RateTable) (cur : String)
    (rows : List (List String)) (r1 r2 : RState)
    (h1 : add_trades ⟨cur, true⟩ table rows initState = .ok r1)
    (h2 : add_trades ⟨cur, false⟩ table rows initState = .ok r2) :
    r1.gains ≤ r2.gains :=
  (add_trades_pair cur table rows initState initState r1 r2
    ⟨rfl, rfl, rfl, le_refl 0, round28_zero, round28_zero, le_refl 0,
      le_refl 0⟩ h1 h2).2.2.2.1

set_option maxRecDepth 400000 in
/-- C6 witness: a header, a sale of 10 at 10 and a lot bought at 1: the
deemed-cost run realizes Decimal(0.8) * 100 < 90, the plain run realizes
90. -/
theorem c6_witness :
    (⟨100, (160000000000000008881784197 : ℚ) / 2000000000000000000000000, 0,
      [⟨"FOO", 10, "2020-01-02", "2021-01-02", 100,
        (160000000000000008881784197 : ℚ) / 2000000000000000000000000⟩],
      [("Trades", 0), ("Header", 1), ("DataDiscriminator", 2),
       ("Asset Category", 3), ("Currency", 4), ("Symbol", 5),
       ("Date/Time", 6), ("Exchange", 7), ("Quantity", 8), ("T. Price", 9),
       ("Proceeds", 10), ("Comm/Fee", 11), ("Basis", 12),
       ("Realized P/L", 13), ("Code", 14)],
      some ⟨⟨"FOO", "2021-01-02, 10:00:00", 1, 10, -10⟩, 0, 10, 100⟩⟩
        : RState).gains ≤
    (⟨100, 90, 0,
      [⟨"FOO", 10, "2020-01-02", "2021-01-02", 100, 90⟩],
      [("Trades", 0), ("Header", 1), ("DataDiscriminator", 2),
       ("Asset Category", 3), ("Currency", 4), ("Symbol", 5),
       ("Date/Time", 6), ("Exchange", 7), ("Quantity", 8), ("T. Price", 9),
       ("Proceeds", 10), ("Comm/Fee", 11), ("Basis", 12),
       ("Realized P/L", 13), ("Code", 14)],
      some ⟨⟨"FOO", "2021-01-02, 10:00:00", 1, 10, -10⟩, 0, 10, 100⟩⟩
        : RState).gains :=
  c6_deemed_cost_monotone [] "EUR"
    [singleAccountHeader, tradeRowSell,
     ["Trades", "Data", "ClosedLot", "Stocks", "EUR", "FOO",
      "2020-01-02, 10:00:00", "-", "10", "1", "", "", "", "", ""]]
    _ _ (by with_unfolding_all decide) (by with_unfolding_all decide)

end IBKR
